import Mathlib

/-!
# Verification of the `fix_bad_unicode` mojibake repair engine

Shallow embedding of the mojibake-repair subsystem of the `metanl`
repository.  The repository contains two revisions of the engine:
`metanl/general.py` and `metanl/fixit.py`.  Both scan a Unicode string for
six shapes of corrupted sequences (UTF-8 bytes mis-decoded as Latin-1 or
Windows-1252 characters), re-encode each matched span to single bytes,
re-decode those bytes as UTF-8, and iterate to a fixed point.

A Python 2 `unicode` string is modelled as a `List Nat` of code units, and
a byte string as a `List Nat` of byte values.  A raised exception is
modelled as `none` of an `Option` result.  The Python 2 codecs used by the
source (`latin-1`, `cp1252` and `utf-8`, the last with Python 2's
tolerance for surrogate sequences) are modelled explicitly.
-/

/-- `CP1252_GREMLINS` from `metanl/general.py` (the identical list appears
in `metanl/fixit.py`): the 18 Windows-1252 characters for control bytes
0x80–0x9F that the engine always treats as evidence of mis-encoding. -/
def CP1252_GREMLINS : List Nat :=
  [0x20AC, 0x201A, 0x0192, 0x201E, 0x2020, 0x2021, 0x02C6, 0x2030, 0x0160,
   0x2039, 0x0152, 0x017D, 0x2022, 0x02DC, 0x0161, 0x0153, 0x017E, 0x0178]

namespace general

/-- `CP1252_MORE_GREMLINS` from `metanl/general.py`: nine additional
Windows-1252 punctuation characters, accepted only in stricter contexts. -/
def CP1252_MORE_GREMLINS : List Nat :=
  [0x2026, 0x2018, 0x2019, 0x201C, 0x201D, 0x2013, 0x2014, 0x2122, 0x203A]

end general

namespace fixit

/-- `CP1252_MORE_GREMLINS` from `metanl/fixit.py`: there it is defined as
`CP1252_GREMLINS` concatenated with the nine extra punctuation characters. -/
def CP1252_MORE_GREMLINS : List Nat :=
  CP1252_GREMLINS ++
  [0x2026, 0x2018, 0x2019, 0x201C, 0x201D, 0x2013, 0x2014, 0x2122, 0x203A]

end fixit

/-- Python 2 `unicode.encode('latin-1')`: each code unit at most 0xFF maps
to the byte of the same value; any larger code unit raises
`UnicodeEncodeError` (`none`). -/
def encodeLatin1 : List Nat → Option (List Nat)
  | [] => some []
  | c :: rest =>
    if c ≤ 0xff then Option.map (fun t => c :: t) (encodeLatin1 rest)
    else none

/-- The Windows-1252 positions of the 27 characters cp1252 places above
Latin-1 (bytes 0x80–0x9F with an assigned mapping). -/
def cp1252HighTable : List (Nat × Nat) :=
  [(0x20AC, 0x80), (0x201A, 0x82), (0x0192, 0x83), (0x201E, 0x84),
   (0x2026, 0x85), (0x2020, 0x86), (0x2021, 0x87), (0x02C6, 0x88),
   (0x2030, 0x89), (0x0160, 0x8A), (0x2039, 0x8B), (0x0152, 0x8C),
   (0x017D, 0x8E), (0x2018, 0x91), (0x2019, 0x92), (0x201C, 0x93),
   (0x201D, 0x94), (0x2022, 0x95), (0x2013, 0x96), (0x2014, 0x97),
   (0x02DC, 0x98), (0x2122, 0x99), (0x0161, 0x9A), (0x203A, 0x9B),
   (0x0153, 0x9C), (0x017E, 0x9E), (0x0178, 0x9F)]

/-- Python 2 cp1252 encoding of one character.  ASCII and the Latin-1
range 0xA0–0xFF map to themselves; the five byte positions 0x81, 0x8D,
0x8F, 0x90, 0x9D are undefined in Windows-1252 and Python keeps them as
the corresponding control characters; the remaining control characters
0x80–0x9F have no cp1252 encoding; above 0xFF only the 27 table entries
are encodable. -/
def cp1252Byte (c : Nat) : Option Nat :=
  if c ≤ 0x7f then some c
  else if c = 0x81 ∨ c = 0x8d ∨ c = 0x8f ∨ c = 0x90 ∨ c = 0x9d then some c
  else if c ≤ 0x9f then none
  else if c ≤ 0xff then some c
  else List.lookup c cp1252HighTable

/-- Python 2 `unicode.encode('cp1252')` over a whole string: encode each
character, raising (`none`) at the first character with no mapping. -/
def encodeCp1252 : List Nat → Option (List Nat)
  | [] => some []
  | c :: rest =>
    match cp1252Byte c with
    | some b => Option.map (fun t => b :: t) (encodeCp1252 rest)
    | none => none

/-- Python 2 `str.decode('utf-8')` on a narrow build.  One-byte sequences
are ASCII; two-byte leads are 0xC2–0xDF; three-byte leads 0xE0–0xEF with
the narrowed second-byte range 0xA0–0xBF after 0xE0 (overlong sequences
are rejected) — unlike Python 3, Python 2 accepts the surrogate
sequences 0xED 0xA0–0xBF 0x80–0xBF; four-byte leads 0xF0–0xF4 produce a
surrogate pair on a narrow build.  Anything else raises
`UnicodeDecodeError` (`none`). -/
def decodeUtf8 : List Nat → Option (List Nat)
  | [] => some []
  | b :: rest =>
    if b ≤ 0x7f then Option.map (fun t => b :: t) (decodeUtf8 rest)
    else if b < 0xc2 then none
    else if b ≤ 0xdf then
      match rest with
      | b2 :: rest2 =>
        if 0x80 ≤ b2 ∧ b2 ≤ 0xbf then
          Option.map (fun t => ((b - 0xc0) * 0x40 + (b2 - 0x80)) :: t)
            (decodeUtf8 rest2)
        else none
      | [] => none
    else if b ≤ 0xef then
      match rest with
      | b2 :: b3 :: rest3 =>
        if (if b = 0xe0 then 0xa0 ≤ b2 else 0x80 ≤ b2) ∧ b2 ≤ 0xbf ∧
            0x80 ≤ b3 ∧ b3 ≤ 0xbf then
          Option.map
            (fun t =>
              ((b - 0xe0) * 0x1000 + (b2 - 0x80) * 0x40 + (b3 - 0x80)) :: t)
            (decodeUtf8 rest3)
        else none
      | _ => none
    else if b ≤ 0xf4 then
      match rest with
      | b2 :: b3 :: b4 :: rest4 =>
        if (if b = 0xf0 then 0x90 ≤ b2 else 0x80 ≤ b2) ∧
            (if b = 0xf4 then b2 ≤ 0x8f else b2 ≤ 0xbf) ∧
            0x80 ≤ b3 ∧ b3 ≤ 0xbf ∧ 0x80 ≤ b4 ∧ b4 ≤ 0xbf then
          Option.map
            (fun t =>
              let v := (b - 0xf0) * 0x40000 + (b2 - 0x80) * 0x1000 +
                (b3 - 0x80) * 0x40 + (b4 - 0x80)
              (0xd800 + (v - 0x10000) / 0x400) ::
                (0xdc00 + (v - 0x10000) % 0x400) :: t)
            (decodeUtf8 rest4)
        else none
      | _ => none
    else none

/-- The standard UTF-8 encoding of one code point (as performed by
Python 2's `unicode.encode('utf-8')`, which also encodes lone
surrogates by the same formula). -/
def utf8Encode (c : Nat) : List Nat :=
  if c ≤ 0x7f then [c]
  else if c ≤ 0x7ff then [0xc0 + c / 0x40, 0x80 + c % 0x40]
  else if c ≤ 0xffff then
    [0xe0 + c / 0x1000, 0x80 + c / 0x40 % 0x40, 0x80 + c % 0x40]
  else
    [0xf0 + c / 0x40000, 0x80 + c / 0x1000 % 0x40, 0x80 + c / 0x40 % 0x40,
     0x80 + c % 0x40]

/-- Latin-1 (ISO-8859-1) decoding maps each byte 0x00–0xFF to the code
point of the same value, so on our representation it is the identity. -/
def decode_as_latin1 (bs : List Nat) : List Nat := bs

example : decodeUtf8 [0xc3, 0xb1] = some [0xf1] := by decide
example : decodeUtf8 (utf8Encode 0x171) = some [0x171] := by decide
example : encodeCp1252 [0xe2, 0x85, 0x2014] = none := by decide
example : encodeCp1252 [0xc3, 0x2014] = some [0xc3, 0x97] := by decide

namespace general

/-- The anchored form of `BAD_UNICODE_REGEX` from `metanl/general.py`: try
the six alternatives of `BAD_UNICODE_SEQUENCES`, in order, at the head of
the string (Python's `re` alternation picks the first alternative that
matches at a position).  Character-class membership is spelled out:
`PAIRS_START` is 0xC2–0xDF, `PAIRS_SAFE_START` 0xC3–0xC9, `PAIRS_REST`
and `TRIPLES_REST` 0x80–0xBF, `TRIPLES_START` 0xE1–0xEF,
`TRIPLES_HIGH_SECOND` 0xA0–0xBF. -/
def matchAt : List Nat → Option (List Nat)
  | a :: b :: rest =>
    if 0xc2 ≤ a ∧ a ≤ 0xdf ∧ 0x80 ≤ b ∧ b ≤ 0xbf then some [a, b]
    else if 0xc3 ≤ a ∧ a ≤ 0xc9 ∧
        (0x80 ≤ b ∧ b ≤ 0xbf ∨ b ∈ CP1252_GREMLINS) then some [a, b]
    else if a = 0xc3 ∧
        (0x80 ≤ b ∧ b ≤ 0xbf ∨ b ∈ CP1252_GREMLINS ∨
          b ∈ CP1252_MORE_GREMLINS) then some [a, b]
    else
      match rest with
      | c :: _ =>
        if 0xe1 ≤ a ∧ a ≤ 0xef ∧ 0x80 ≤ b ∧ b ≤ 0xbf ∧ 0x80 ≤ c ∧ c ≤ 0xbf
          then some [a, b, c]
        else if a = 0xe0 ∧ 0xa0 ≤ b ∧ b ≤ 0xbf ∧ 0x80 ≤ c ∧ c ≤ 0xbf
          then some [a, b, c]
        else if a = 0xe2 ∧ (0x80 ≤ b ∧ b ≤ 0xbf ∨ b ∈ CP1252_GREMLINS) ∧
            (0x80 ≤ c ∧ c ≤ 0xbf ∨ c ∈ CP1252_GREMLINS ∨
              c ∈ CP1252_MORE_GREMLINS)
          then some [a, b, c]
        else none
      | [] => none
  | _ => none

/-- `BAD_UNICODE_RE.search`: scan left to right, return the first position
where `matchAt` succeeds, split as (text before the match, matched span,
text after the match). -/
def searchSplit : List Nat → Option (List Nat × List Nat × List Nat)
  | [] => none
  | c :: rest =>
    match matchAt (c :: rest) with
    | some span => some ([], span, List.drop span.length (c :: rest))
    | none =>
      Option.map (fun p => (c :: p.1, p.2.1, p.2.2)) (searchSplit rest)

example : matchAt [0xc3, 0xb1, 99] = some [0xc3, 0xb1] := by decide
example : matchAt [0xe2, 0x80, 0x94] = some [0xe2, 0x80, 0x94] := by decide
example : matchAt [0xc5, 0x2122] = none := by decide
example : searchSplit [102, 0xc3, 0xb1, 99] =
    some ([102], [0xc3, 0xb1], [99]) := by decide

end general

namespace fixit

/-- The anchored form of `BAD_UNICODE_REGEX` from `metanl/fixit.py`.  It
differs from the `general.py` regex in the second alternative (only
`CP1252_GREMLINS` may follow a safe pair start) and in using the
27-element `CP1252_MORE_GREMLINS` of `fixit.py` in alternatives 3 and 6. -/
def matchAt : List Nat → Option (List Nat)
  | a :: b :: rest =>
    if 0xc2 ≤ a ∧ a ≤ 0xdf ∧ 0x80 ≤ b ∧ b ≤ 0xbf then some [a, b]
    else if 0xc3 ≤ a ∧ a ≤ 0xc9 ∧ b ∈ CP1252_GREMLINS then some [a, b]
    else if a = 0xc3 ∧
        (0x80 ≤ b ∧ b ≤ 0xbf ∨ b ∈ CP1252_MORE_GREMLINS) then some [a, b]
    else
      match rest with
      | c :: _ =>
        if 0xe1 ≤ a ∧ a ≤ 0xef ∧ 0x80 ≤ b ∧ b ≤ 0xbf ∧ 0x80 ≤ c ∧ c ≤ 0xbf
          then some [a, b, c]
        else if a = 0xe0 ∧ 0xa0 ≤ b ∧ b ≤ 0xbf ∧ 0x80 ≤ c ∧ c ≤ 0xbf
          then some [a, b, c]
        else if a = 0xe2 ∧ (0x80 ≤ b ∧ b ≤ 0xbf ∨ b ∈ CP1252_GREMLINS) ∧
            (0x80 ≤ c ∧ c ≤ 0xbf ∨ c ∈ CP1252_MORE_GREMLINS)
          then some [a, b, c]
        else none
      | [] => none
  | _ => none

/-- `BAD_UNICODE_RE.search` for the `fixit.py` regex. -/
def searchSplit : List Nat → Option (List Nat × List Nat × List Nat)
  | [] => none
  | c :: rest =>
    match matchAt (c :: rest) with
    | some span => some ([], span, List.drop span.length (c :: rest))
    | none =>
      Option.map (fun p => (c :: p.1, p.2.1, p.2.2)) (searchSplit rest)

end fixit

namespace general

/-- The byte reconstruction of a matched span in
`metanl/general.py` (`fix_bad_unicode`, lines 330–339): encode the span
as Latin-1; on `UnicodeEncodeError` re-encode the whole span as cp1252
instead.  `none` means the cp1252 encode also raised, which the source
does not catch. -/
def toBytes (span : List Nat) : Option (List Nat) :=
  match encodeLatin1 span with
  | some bs => some bs
  | none => encodeCp1252 span

/-- Repair one matched span in `metanl/general.py` (lines 330–341):
reconstruct the single-byte sequence, then decode it as UTF-8.  `none`
models an uncaught `UnicodeEncodeError` or `UnicodeDecodeError`. -/
def fixMatch (span : List Nat) : Option (List Nat) :=
  match toBytes span with
  | some bs => decodeUtf8 bs
  | none => none

example : fixMatch [0xc3, 0xb1] = some [0xf1] := by decide
example : fixMatch [0xe2, 0x80, 0x94] = some [0x2014] := by decide
example : fixMatch [0xc3, 0x2014] = some [0xd7] := by decide
example : fixMatch [0xe2, 0x85, 0x2014] = none := by decide

end general

namespace fixit

/-- `recode_from_windows` from `metanl/fixit.py`: replace each character
that appears in `CP1252_MORE_GREMLINS` by its Windows-1252 byte position
(`char.encode('cp1252').decode('latin-1')`), leaving all other characters
unchanged.  `none` models the (unreachable) case of `encode('cp1252')`
raising on a listed character. -/
def recode_from_windows : List Nat → Option (List Nat)
  | [] => some []
  | c :: rest =>
    if c ∈ CP1252_MORE_GREMLINS then
      match cp1252Byte c with
      | some b => Option.map (fun t => b :: t) (recode_from_windows rest)
      | none => none
    else Option.map (fun t => c :: t) (recode_from_windows rest)

/-- Repair one matched span in `metanl/fixit.py` (lines 167–181): encode
the span as Latin-1; on `UnicodeEncodeError`, first push the gremlin
characters back down to bytes 0x80–0x9F with `recode_from_windows` and
encode the result as Latin-1; then decode the bytes as UTF-8. -/
def fixMatch (span : List Nat) : Option (List Nat) :=
  match encodeLatin1 span with
  | some bs => decodeUtf8 bs
  | none =>
    match recode_from_windows span with
    | some r =>
      match encodeLatin1 r with
      | some bs => decodeUtf8 bs
      | none => none
    | none => none

example : fixMatch [0xc3, 0xb1] = some [0xf1] := by decide
example : fixMatch [0xe2, 0x85, 0x2014] = some [0x2157] := by decide
example : fixMatch [0xe2, 0x81, 0x201d] = some [0x2054] := by decide

end fixit

namespace general

theorem matchAt_nil : matchAt [] = none := rfl

theorem matchAt_single (a : Nat) : matchAt [a] = none := rfl

/-- Inventory of the spans `general.matchAt` can return: the span is a
prefix of the input of length 2 or 3, and its characters satisfy the
guard of one of the six alternatives of `BAD_UNICODE_SEQUENCES`. -/
theorem matchAt_shapes {l span : List Nat} (h : matchAt l = some span) :
    (∃ a b t, l = a :: b :: t ∧ span = [a, b] ∧
      (0xc2 ≤ a ∧ a ≤ 0xdf ∧ 0x80 ≤ b ∧ b ≤ 0xbf ∨
       0xc3 ≤ a ∧ a ≤ 0xc9 ∧ (0x80 ≤ b ∧ b ≤ 0xbf ∨ b ∈ CP1252_GREMLINS) ∨
       a = 0xc3 ∧ (0x80 ≤ b ∧ b ≤ 0xbf ∨ b ∈ CP1252_GREMLINS ∨
         b ∈ CP1252_MORE_GREMLINS))) ∨
    (∃ a b c t, l = a :: b :: c :: t ∧ span = [a, b, c] ∧
      (0xe1 ≤ a ∧ a ≤ 0xef ∧ 0x80 ≤ b ∧ b ≤ 0xbf ∧ 0x80 ≤ c ∧ c ≤ 0xbf ∨
       a = 0xe0 ∧ 0xa0 ≤ b ∧ b ≤ 0xbf ∧ 0x80 ≤ c ∧ c ≤ 0xbf ∨
       a = 0xe2 ∧ (0x80 ≤ b ∧ b ≤ 0xbf ∨ b ∈ CP1252_GREMLINS) ∧
         (0x80 ≤ c ∧ c ≤ 0xbf ∨ c ∈ CP1252_GREMLINS ∨
           c ∈ CP1252_MORE_GREMLINS))) := by
  match l with
  | [] => simp [matchAt] at h
  | [a] => simp [matchAt] at h
  | a :: b :: rest =>
    simp only [matchAt] at h
    split_ifs at h with h1 h2 h3
    · exact Or.inl ⟨a, b, rest, rfl, (Option.some.inj h).symm, Or.inl h1⟩
    · exact Or.inl ⟨a, b, rest, rfl, (Option.some.inj h).symm, Or.inr (Or.inl h2)⟩
    · exact Or.inl ⟨a, b, rest, rfl, (Option.some.inj h).symm, Or.inr (Or.inr h3)⟩
    · match rest with
      | [] => simp at h
      | c :: t =>
        simp only [] at h
        split_ifs at h with h4 h5 h6
        · exact Or.inr ⟨a, b, c, t, rfl, (Option.some.inj h).symm, Or.inl h4⟩
        · exact Or.inr ⟨a, b, c, t, rfl, (Option.some.inj h).symm, Or.inr (Or.inl h5)⟩
        · exact Or.inr ⟨a, b, c, t, rfl, (Option.some.inj h).symm, Or.inr (Or.inr h6)⟩

end general

namespace fixit

theorem matchAt_nil_fx : matchAt [] = none := rfl

theorem matchAt_single_fx (a : Nat) : matchAt [a] = none := rfl

/-- Inventory of the spans `fixit.matchAt` can return. -/
theorem matchAt_shapes_fx {l span : List Nat} (h : matchAt l = some span) :
    (∃ a b t, l = a :: b :: t ∧ span = [a, b] ∧
      (0xc2 ≤ a ∧ a ≤ 0xdf ∧ 0x80 ≤ b ∧ b ≤ 0xbf ∨
       0xc3 ≤ a ∧ a ≤ 0xc9 ∧ b ∈ CP1252_GREMLINS ∨
       a = 0xc3 ∧ (0x80 ≤ b ∧ b ≤ 0xbf ∨ b ∈ CP1252_MORE_GREMLINS))) ∨
    (∃ a b c t, l = a :: b :: c :: t ∧ span = [a, b, c] ∧
      (0xe1 ≤ a ∧ a ≤ 0xef ∧ 0x80 ≤ b ∧ b ≤ 0xbf ∧ 0x80 ≤ c ∧ c ≤ 0xbf ∨
       a = 0xe0 ∧ 0xa0 ≤ b ∧ b ≤ 0xbf ∧ 0x80 ≤ c ∧ c ≤ 0xbf ∨
       a = 0xe2 ∧ (0x80 ≤ b ∧ b ≤ 0xbf ∨ b ∈ CP1252_GREMLINS) ∧
         (0x80 ≤ c ∧ c ≤ 0xbf ∨ c ∈ CP1252_MORE_GREMLINS))) := by
  match l with
  | [] => simp [matchAt] at h
  | [a] => simp [matchAt] at h
  | a :: b :: rest =>
    simp only [matchAt] at h
    split_ifs at h with h1 h2 h3
    · exact Or.inl ⟨a, b, rest, rfl, (Option.some.inj h).symm, Or.inl h1⟩
    · exact Or.inl ⟨a, b, rest, rfl, (Option.some.inj h).symm, Or.inr (Or.inl h2)⟩
    · exact Or.inl ⟨a, b, rest, rfl, (Option.some.inj h).symm, Or.inr (Or.inr h3)⟩
    · match rest with
      | [] => simp at h
      | c :: t =>
        simp only [] at h
        split_ifs at h with h4 h5 h6
        · exact Or.inr ⟨a, b, c, t, rfl, (Option.some.inj h).symm, Or.inl h4⟩
        · exact Or.inr ⟨a, b, c, t, rfl, (Option.some.inj h).symm, Or.inr (Or.inl h5)⟩
        · exact Or.inr ⟨a, b, c, t, rfl, (Option.some.inj h).symm, Or.inr (Or.inr h6)⟩

end fixit

namespace general

/-- A returned span is 2 or 3 characters long. -/
theorem matchAt_len {l span : List Nat} (h : matchAt l = some span) :
    span.length = 2 ∨ span.length = 3 := by
  rcases matchAt_shapes h with ⟨a, b, t, _, rfl, _⟩ | ⟨a, b, c, t, _, rfl, _⟩
  · exact Or.inl rfl
  · exact Or.inr rfl

/-- A returned span is a prefix of the input. -/
theorem matchAt_prefix {l span : List Nat} (h : matchAt l = some span) :
    l = span ++ l.drop span.length := by
  rcases matchAt_shapes h with ⟨a, b, t, rfl, rfl, _⟩ | ⟨a, b, c, t, rfl, rfl, _⟩ <;> rfl

end general

namespace fixit

theorem matchAt_len_fx {l span : List Nat} (h : matchAt l = some span) :
    span.length = 2 ∨ span.length = 3 := by
  rcases matchAt_shapes_fx h with ⟨a, b, t, _, rfl, _⟩ | ⟨a, b, c, t, _, rfl, _⟩
  · exact Or.inl rfl
  · exact Or.inr rfl

theorem matchAt_prefix_fx {l span : List Nat} (h : matchAt l = some span) :
    l = span ++ l.drop span.length := by
  rcases matchAt_shapes_fx h with ⟨a, b, t, rfl, rfl, _⟩ | ⟨a, b, c, t, rfl, rfl, _⟩ <;> rfl

end fixit

/-- Every gremlin lies above the Latin-1 range and its cp1252 encoding is
a byte in 0x80–0x9F. -/
theorem gremlins_byte_spec : ∀ b ∈ CP1252_GREMLINS, 0x100 ≤ b ∧
    cp1252Byte b = some ((cp1252Byte b).getD 0) ∧
    0x80 ≤ (cp1252Byte b).getD 0 ∧ (cp1252Byte b).getD 0 ≤ 0x9f := by decide

/-- Likewise for the nine extra gremlins of `metanl/general.py`. -/
theorem more_gremlins_byte_spec : ∀ b ∈ general.CP1252_MORE_GREMLINS,
    0x100 ≤ b ∧ cp1252Byte b = some ((cp1252Byte b).getD 0) ∧
    0x80 ≤ (cp1252Byte b).getD 0 ∧ (cp1252Byte b).getD 0 ≤ 0x9f := by decide

/-- Likewise for the 27-element gremlin list of `metanl/fixit.py`. -/
theorem fixit_gremlins_byte_spec : ∀ b ∈ fixit.CP1252_MORE_GREMLINS,
    0x100 ≤ b ∧ cp1252Byte b = some ((cp1252Byte b).getD 0) ∧
    0x80 ≤ (cp1252Byte b).getD 0 ∧ (cp1252Byte b).getD 0 ≤ 0x9f := by decide

/-- Within the Latin-1 range, a successful cp1252 encoding is the
identity. -/
theorem cp1252Byte_low {c m : Nat} (hc : c ≤ 0xff) (h : cp1252Byte c = some m) :
    m = c := by
  unfold cp1252Byte at h
  split_ifs at h <;> exact (Option.some.inj h).symm

/-- Latin-1 encoding succeeds exactly on strings of code units at most
0xFF and is then the identity on our representation. -/
theorem encodeLatin1_ok : ∀ l : List Nat, (∀ c ∈ l, c ≤ 0xff) →
    encodeLatin1 l = some l := by
  intro l hl
  induction l with
  | nil => rfl
  | cons c rest ih =>
    have hc : c ≤ 0xff := hl c (by simp)
    simp only [encodeLatin1, if_pos hc, ih fun x hx => hl x (by simp [hx])]
    rfl

theorem encodeLatin1_some {l bs : List Nat} (h : encodeLatin1 l = some bs) :
    bs = l ∧ ∀ c ∈ l, c ≤ 0xff := by
  induction l generalizing bs with
  | nil =>
    simp only [encodeLatin1, Option.some.injEq] at h
    simp [← h]
  | cons c rest ih =>
    simp only [encodeLatin1] at h
    split_ifs at h with hc
    · match hr : encodeLatin1 rest with
      | some bs' =>
        rw [hr] at h
        obtain ⟨rfl, hall⟩ := ih hr
        simp only [Option.map_some', Option.some.injEq] at h
        refine ⟨h.symm, ?_⟩
        intro x hx
        rcases List.mem_cons.1 hx with rfl | hx
        · exact hc
        · exact hall x hx
      | none => rw [hr] at h; simp at h

/-- One-step reduction of `decodeUtf8` on a two-element list. -/
theorem decodeUtf8_two_core (a b : Nat) : decodeUtf8 [a, b] =
    (if a ≤ 0x7f then Option.map (fun t => a :: t) (decodeUtf8 [b])
     else if a < 0xc2 then none
     else if a ≤ 0xdf then
       (if 0x80 ≤ b ∧ b ≤ 0xbf then
         Option.map (fun t => ((a - 0xc0) * 0x40 + (b - 0x80)) :: t)
           (decodeUtf8 [])
        else none)
     else if a ≤ 0xef then none
     else if a ≤ 0xf4 then none
     else none) := rfl

/-- One-step reduction of `decodeUtf8` on a three-element list. -/
theorem decodeUtf8_three_core (a b c : Nat) : decodeUtf8 [a, b, c] =
    (if a ≤ 0x7f then Option.map (fun t => a :: t) (decodeUtf8 [b, c])
     else if a < 0xc2 then none
     else if a ≤ 0xdf then
       (if 0x80 ≤ b ∧ b ≤ 0xbf then
         Option.map (fun t => ((a - 0xc0) * 0x40 + (b - 0x80)) :: t)
           (decodeUtf8 [c])
        else none)
     else if a ≤ 0xef then
       (if (if a = 0xe0 then 0xa0 ≤ b else 0x80 ≤ b) ∧ b ≤ 0xbf ∧
           0x80 ≤ c ∧ c ≤ 0xbf then
         Option.map
           (fun t =>
             ((a - 0xe0) * 0x1000 + (b - 0x80) * 0x40 + (c - 0x80)) :: t)
           (decodeUtf8 [])
        else none)
     else if a ≤ 0xf4 then none
     else none) := rfl

/-- Two-byte UTF-8 decoding, symbolically. -/
theorem decodeUtf8_two {a b : Nat} (h1 : 0xc2 ≤ a) (h2 : a ≤ 0xdf)
    (h3 : 0x80 ≤ b) (h4 : b ≤ 0xbf) :
    decodeUtf8 [a, b] = some [(a - 0xc0) * 0x40 + (b - 0x80)] := by
  have c1 : ¬ a ≤ 0x7f := by omega
  have c2 : ¬ a < 0xc2 := by omega
  rw [decodeUtf8_two_core, if_neg c1, if_neg c2, if_pos h2, if_pos ⟨h3, h4⟩]
  rfl

/-- Three-byte UTF-8 decoding, symbolically (with Python 2's tolerance
for the surrogate range after lead byte 0xED). -/
theorem decodeUtf8_three {a b c : Nat} (h1 : 0xe0 ≤ a) (h2 : a ≤ 0xef)
    (h3 : if a = 0xe0 then 0xa0 ≤ b else 0x80 ≤ b) (h4 : b ≤ 0xbf)
    (h5 : 0x80 ≤ c) (h6 : c ≤ 0xbf) :
    decodeUtf8 [a, b, c] =
      some [(a - 0xe0) * 0x1000 + (b - 0x80) * 0x40 + (c - 0x80)] := by
  have c1 : ¬ a ≤ 0x7f := by omega
  have c2 : ¬ a < 0xc2 := by omega
  have c3 : ¬ a ≤ 0xdf := by omega
  rw [decodeUtf8_three_core, if_neg c1, if_neg c2, if_neg c3, if_pos h2,
    if_pos ⟨h3, h4, h5, h6⟩]
  rfl

theorem encodeLatin1_cons_le {c : Nat} (rest : List Nat) (hc : c ≤ 0xff) :
    encodeLatin1 (c :: rest) =
      Option.map (fun t => c :: t) (encodeLatin1 rest) := by
  show (if c ≤ 0xff then Option.map (fun t => c :: t) (encodeLatin1 rest)
      else none) = _
  rw [if_pos hc]

theorem encodeLatin1_cons_gt {c : Nat} (rest : List Nat) (hc : 0xff < c) :
    encodeLatin1 (c :: rest) = none := by
  show (if c ≤ 0xff then Option.map (fun t => c :: t) (encodeLatin1 rest)
      else none) = _
  rw [if_neg (by omega)]

theorem encodeCp1252_cons_some {c m : Nat} (rest : List Nat)
    (hm : cp1252Byte c = some m) :
    encodeCp1252 (c :: rest) =
      Option.map (fun t => m :: t) (encodeCp1252 rest) := by
  show (match cp1252Byte c with
      | some b => Option.map (fun t => b :: t) (encodeCp1252 rest)
      | none => none) = _
  rw [hm]

theorem encodeCp1252_cons_none {c : Nat} (rest : List Nat)
    (hm : cp1252Byte c = none) :
    encodeCp1252 (c :: rest) = none := by
  show (match cp1252Byte c with
      | some b => Option.map (fun t => b :: t) (encodeCp1252 rest)
      | none => none) = _
  rw [hm]

/-- Inverting a successful cp1252 encoding of a two-character span. -/
theorem encodeCp1252_two {a b : Nat} {bs : List Nat}
    (h : encodeCp1252 [a, b] = some bs) :
    ∃ ma mb, cp1252Byte a = some ma ∧ cp1252Byte b = some mb ∧
      bs = [ma, mb] := by
  rcases ha : cp1252Byte a with _ | ma
  · rw [encodeCp1252_cons_none _ ha] at h; simp at h
  · rw [encodeCp1252_cons_some _ ha] at h
    rcases hb : cp1252Byte b with _ | mb
    · rw [encodeCp1252_cons_none _ hb] at h; simp at h
    · rw [encodeCp1252_cons_some _ hb] at h
      refine ⟨ma, mb, rfl, rfl, ?_⟩
      simpa [show encodeCp1252 [] = some [] from rfl] using h.symm

/-- Inverting a successful cp1252 encoding of a three-character span. -/
theorem encodeCp1252_three {a b c : Nat} {bs : List Nat}
    (h : encodeCp1252 [a, b, c] = some bs) :
    ∃ ma mb mc, cp1252Byte a = some ma ∧ cp1252Byte b = some mb ∧
      cp1252Byte c = some mc ∧ bs = [ma, mb, mc] := by
  rcases ha : cp1252Byte a with _ | ma
  · rw [encodeCp1252_cons_none _ ha] at h; simp at h
  · rw [encodeCp1252_cons_some _ ha] at h
    rcases hb : cp1252Byte b with _ | mb
    · rw [encodeCp1252_cons_none _ hb] at h; simp at h
    · rw [encodeCp1252_cons_some _ hb] at h
      rcases hc : cp1252Byte c with _ | mc
      · rw [encodeCp1252_cons_none _ hc] at h; simp at h
      · rw [encodeCp1252_cons_some _ hc] at h
        refine ⟨ma, mb, mc, rfl, rfl, rfl, ?_⟩
        simpa [show encodeCp1252 [] = some [] from rfl] using h.symm

/-- cp1252 is the identity on 0xA0–0xFF. -/
theorem cp1252Byte_a0ff {c : Nat} (h1 : 0xa0 ≤ c) (h2 : c ≤ 0xff) :
    cp1252Byte c = some c := by
  unfold cp1252Byte
  rw [if_neg (by omega), if_neg (by omega), if_neg (by omega), if_pos h2]

theorem gremlin_byte {b : Nat} (hb : b ∈ CP1252_GREMLINS) :
    ∃ m, cp1252Byte b = some m ∧ 0x80 ≤ m ∧ m ≤ 0x9f := by
  obtain ⟨_, h2, h3, h4⟩ := gremlins_byte_spec b hb
  exact ⟨_, h2, h3, h4⟩

theorem gremlin_ge {b : Nat} (hb : b ∈ CP1252_GREMLINS) : 0x100 ≤ b :=
  (gremlins_byte_spec b hb).1

theorem more_gremlin_byte {b : Nat} (hb : b ∈ general.CP1252_MORE_GREMLINS) :
    ∃ m, cp1252Byte b = some m ∧ 0x80 ≤ m ∧ m ≤ 0x9f := by
  obtain ⟨_, h2, h3, h4⟩ := more_gremlins_byte_spec b hb
  exact ⟨_, h2, h3, h4⟩

theorem more_gremlin_ge {b : Nat} (hb : b ∈ general.CP1252_MORE_GREMLINS) :
    0x100 ≤ b := (more_gremlins_byte_spec b hb).1

theorem fixit_gremlin_byte {b : Nat} (hb : b ∈ fixit.CP1252_MORE_GREMLINS) :
    ∃ m, cp1252Byte b = some m ∧ 0x80 ≤ m ∧ m ≤ 0x9f := by
  obtain ⟨_, h2, h3, h4⟩ := fixit_gremlins_byte_spec b hb
  exact ⟨_, h2, h3, h4⟩

theorem fixit_gremlin_ge {b : Nat} (hb : b ∈ fixit.CP1252_MORE_GREMLINS) :
    0x100 ≤ b := (fixit_gremlins_byte_spec b hb).1

namespace general

/-- The heart of the repair step in `metanl/general.py`: whenever the
byte reconstruction of a matched span succeeds, the reconstructed bytes
decode (under Python 2's UTF-8 decoder) to exactly one code unit. -/
theorem toBytes_decode {l span bs : List Nat} (h : matchAt l = some span)
    (hbs : toBytes span = some bs) : ∃ ch, decodeUtf8 bs = some [ch] := by
  rcases matchAt_shapes h with ⟨a, b, t, hl, rfl, hcase⟩ |
    ⟨a, b, c, t, hl, rfl, hcase⟩
  · have hnorm : (0xc2 ≤ a ∧ a ≤ 0xdf) ∧
        (0x80 ≤ b ∧ b ≤ 0xbf ∨ b ∈ CP1252_GREMLINS ∨
          b ∈ CP1252_MORE_GREMLINS) := by
      rcases hcase with ⟨ha1, ha2, hb1, hb2⟩ | ⟨ha1, ha2, hbor⟩ | ⟨rfl, hbor⟩
      · exact ⟨⟨ha1, ha2⟩, Or.inl ⟨hb1, hb2⟩⟩
      · refine ⟨⟨by omega, by omega⟩, ?_⟩
        rcases hbor with hc | hg
        exacts [Or.inl hc, Or.inr (Or.inl hg)]
      · exact ⟨⟨by norm_num, by norm_num⟩, hbor⟩
    obtain ⟨⟨ha1, ha2⟩, hbor⟩ := hnorm
    unfold toBytes at hbs
    rcases hL : encodeLatin1 [a, b] with _ | e
    · rw [hL] at hbs
      simp only [] at hbs
      obtain ⟨ma, mb, hma, hmb, rfl⟩ := encodeCp1252_two hbs
      have hma2 : ma = a := cp1252Byte_low (by omega) hma
      have hmb' : 0x80 ≤ mb ∧ mb ≤ 0xbf := by
        rcases hbor with ⟨hb1, hb2⟩ | hg | hg
        · have := cp1252Byte_low (by omega) hmb
          omega
        · obtain ⟨m, hm, hm1, hm2⟩ := gremlin_byte hg
          rw [hm] at hmb
          have := Option.some.inj hmb
          omega
        · obtain ⟨m, hm, hm1, hm2⟩ := more_gremlin_byte hg
          rw [hm] at hmb
          have := Option.some.inj hmb
          omega
      rw [hma2]
      exact ⟨_, decodeUtf8_two ha1 ha2 hmb'.1 hmb'.2⟩
    · rw [hL] at hbs
      simp only [] at hbs
      obtain rfl : e = bs := Option.some.inj hbs
      obtain ⟨rfl, hball⟩ := encodeLatin1_some hL
      have hbff : b ≤ 0xff := hball b (by simp)
      have hbc : 0x80 ≤ b ∧ b ≤ 0xbf := by
        rcases hbor with hc | hg | hg
        · exact hc
        · exact absurd (gremlin_ge hg) (by omega)
        · exact absurd (more_gremlin_ge hg) (by omega)
      exact ⟨_, decodeUtf8_two ha1 ha2 hbc.1 hbc.2⟩
  · have hnorm : (0xe0 ≤ a ∧ a ≤ 0xef) ∧ (a = 0xe0 → 0xa0 ≤ b ∧ b ≤ 0xbf) ∧
        (0x80 ≤ b ∧ b ≤ 0xbf ∨ b ∈ CP1252_GREMLINS) ∧
        (0x80 ≤ c ∧ c ≤ 0xbf ∨ c ∈ CP1252_GREMLINS ∨
          c ∈ CP1252_MORE_GREMLINS) := by
      rcases hcase with ⟨ha1, ha2, hb1, hb2, hc1, hc2⟩ |
        ⟨rfl, hb1, hb2, hc1, hc2⟩ | ⟨rfl, hbor, hcor⟩
      · exact ⟨⟨by omega, ha2⟩, fun he => absurd he (by omega),
          Or.inl ⟨hb1, hb2⟩, Or.inl ⟨hc1, hc2⟩⟩
      · exact ⟨⟨by norm_num, by norm_num⟩, fun _ => ⟨hb1, hb2⟩,
          Or.inl ⟨by omega, hb2⟩, Or.inl ⟨hc1, hc2⟩⟩
      · exact ⟨⟨by norm_num, by norm_num⟩, fun he => absurd he (by norm_num),
          hbor, hcor⟩
    obtain ⟨⟨ha1, ha2⟩, hE0, hbor, hcor⟩ := hnorm
    unfold toBytes at hbs
    rcases hL : encodeLatin1 [a, b, c] with _ | e
    · rw [hL] at hbs
      simp only [] at hbs
      obtain ⟨ma, mb, mc, hma, hmb, hmc, rfl⟩ := encodeCp1252_three hbs
      have hma2 : ma = a := cp1252Byte_low (by omega) hma
      have hmb' : (0x80 ≤ mb ∧ mb ≤ 0xbf) ∧ (a = 0xe0 → 0xa0 ≤ mb) := by
        rcases hbor with ⟨hb1, hb2⟩ | hg
        · have hmbe : mb = b := cp1252Byte_low (by omega) hmb
          exact ⟨⟨by omega, by omega⟩,
            fun he => by have h5 := (hE0 he).1; omega⟩
        · obtain ⟨m, hm, hm1, hm2⟩ := gremlin_byte hg
          rw [hm] at hmb
          have hmm := Option.some.inj hmb
          have hbge := gremlin_ge hg
          refine ⟨⟨by omega, by omega⟩, fun he => ?_⟩
          exact absurd (hE0 he).2 (by omega)
      have hmc' : 0x80 ≤ mc ∧ mc ≤ 0xbf := by
        rcases hcor with ⟨hc1, hc2⟩ | hg | hg
        · have := cp1252Byte_low (by omega) hmc
          omega
        · obtain ⟨m, hm, hm1, hm2⟩ := gremlin_byte hg
          rw [hm] at hmc
          have := Option.some.inj hmc
          omega
        · obtain ⟨m, hm, hm1, hm2⟩ := more_gremlin_byte hg
          rw [hm] at hmc
          have := Option.some.inj hmc
          omega
      rw [hma2]
      refine ⟨_, decodeUtf8_three ha1 ha2 ?_ hmb'.1.2 hmc'.1 hmc'.2⟩
      by_cases he : a = 0xe0
      · rw [if_pos he]
        exact hmb'.2 he
      · rw [if_neg he]
        exact hmb'.1.1
    · rw [hL] at hbs
      simp only [] at hbs
      obtain rfl : e = bs := Option.some.inj hbs
      obtain ⟨rfl, hball⟩ := encodeLatin1_some hL
      have hbff : b ≤ 0xff := hball b (by simp)
      have hcff : c ≤ 0xff := hball c (by simp)
      have hbc : 0x80 ≤ b ∧ b ≤ 0xbf := by
        rcases hbor with hcnt | hg
        · exact hcnt
        · exact absurd (gremlin_ge hg) (by omega)
      have hcc : 0x80 ≤ c ∧ c ≤ 0xbf := by
        rcases hcor with hcnt | hg | hg
        · exact hcnt
        · exact absurd (gremlin_ge hg) (by omega)
        · exact absurd (more_gremlin_ge hg) (by omega)
      refine ⟨_, decodeUtf8_three ha1 ha2 ?_ hbc.2 hcc.1 hcc.2⟩
      by_cases he : a = 0xe0
      · rw [if_pos he]
        exact (hE0 he).1
      · rw [if_neg he]
        exact hbc.1

/-- When `general.py` repairs a matched span, either an exception is
raised (`none`) or the replacement is exactly one code unit. -/
theorem fixMatch_disj {l span : List Nat} (h : matchAt l = some span) :
    fixMatch span = none ∨ ∃ ch, fixMatch span = some [ch] := by
  unfold fixMatch
  rcases hB : toBytes span with _ | bs
  · exact Or.inl rfl
  · right
    obtain ⟨ch, hch⟩ := toBytes_decode h hB
    exact ⟨ch, hch⟩

end general

namespace fixit

theorem not_mem_more_of_le {x : Nat} (hx : x ≤ 0xff) :
    x ∉ CP1252_MORE_GREMLINS :=
  fun hm => absurd (fixit_gremlin_ge hm) (by omega)

theorem mem_more_of_gremlin {x : Nat} (hx : x ∈ CP1252_GREMLINS) :
    x ∈ CP1252_MORE_GREMLINS := by
  unfold CP1252_MORE_GREMLINS
  exact List.mem_append_left _ hx

theorem recode_cons_mem {x m : Nat} (rest : List Nat)
    (hx : x ∈ CP1252_MORE_GREMLINS) (hm : cp1252Byte x = some m) :
    recode_from_windows (x :: rest) =
      Option.map (fun t => m :: t) (recode_from_windows rest) := by
  show (if x ∈ CP1252_MORE_GREMLINS then
      match cp1252Byte x with
      | some b => Option.map (fun t => b :: t) (recode_from_windows rest)
      | none => none
    else Option.map (fun t => x :: t) (recode_from_windows rest)) = _
  rw [if_pos hx, hm]

theorem recode_cons_notmem {x : Nat} (rest : List Nat)
    (hx : x ∉ CP1252_MORE_GREMLINS) :
    recode_from_windows (x :: rest) =
      Option.map (fun t => x :: t) (recode_from_windows rest) := by
  show (if x ∈ CP1252_MORE_GREMLINS then
      match cp1252Byte x with
      | some b => Option.map (fun t => b :: t) (recode_from_windows rest)
      | none => none
    else Option.map (fun t => x :: t) (recode_from_windows rest)) = _
  rw [if_neg hx]

/-- The repair step of `metanl/fixit.py` never raises on a matched span:
the replacement always exists and is exactly one code unit. -/
theorem fixMatch_one {l span : List Nat} (h : matchAt l = some span) :
    ∃ ch, fixMatch span = some [ch] := by
  rcases matchAt_shapes_fx h with ⟨a, b, t, hl, rfl, hcase⟩ |
    ⟨a, b, c, t, hl, rfl, hcase⟩
  · have hnorm : (0xc2 ≤ a ∧ a ≤ 0xdf) ∧
        (0x80 ≤ b ∧ b ≤ 0xbf ∨ b ∈ CP1252_MORE_GREMLINS) := by
      rcases hcase with ⟨ha1, ha2, hb1, hb2⟩ | ⟨ha1, ha2, hg⟩ | ⟨rfl, hbor⟩
      · exact ⟨⟨ha1, ha2⟩, Or.inl ⟨hb1, hb2⟩⟩
      · exact ⟨⟨by omega, by omega⟩, Or.inr (mem_more_of_gremlin hg)⟩
      · exact ⟨⟨by norm_num, by norm_num⟩, hbor⟩
    obtain ⟨⟨ha1, ha2⟩, hbor⟩ := hnorm
    unfold fixMatch
    rcases hL : encodeLatin1 [a, b] with _ | e
    · have hbgt : 0xff < b := by
        by_contra hb
        push_neg at hb
        rw [encodeLatin1_ok [a, b] ?_] at hL
        · cases hL
        · intro x hx
          simp at hx
          rcases hx with rfl | rfl <;> omega
      have hbm : b ∈ CP1252_MORE_GREMLINS := by
        rcases hbor with ⟨hb1, hb2⟩ | hm
        · omega
        · exact hm
      obtain ⟨m, hm, hm1, hm2⟩ := fixit_gremlin_byte hbm
      have hrec : recode_from_windows [a, b] = some [a, m] := by
        rw [recode_cons_notmem _ (not_mem_more_of_le (by omega)),
          recode_cons_mem _ hbm hm]
        rfl
      rw [hrec]
      simp only []
      rw [encodeLatin1_ok [a, m] ?_]
      · exact ⟨_, decodeUtf8_two ha1 ha2 hm1 (by omega)⟩
      · intro x hx
        simp at hx
        rcases hx with rfl | rfl <;> omega
    · obtain ⟨rfl, hball⟩ := encodeLatin1_some hL
      have hbff : b ≤ 0xff := hball b (by simp)
      have hbc : 0x80 ≤ b ∧ b ≤ 0xbf := by
        rcases hbor with hc | hm
        · exact hc
        · exact absurd (fixit_gremlin_ge hm) (by omega)
      exact ⟨_, decodeUtf8_two ha1 ha2 hbc.1 hbc.2⟩
  · have hnorm : (0xe0 ≤ a ∧ a ≤ 0xef) ∧ (a = 0xe0 → 0xa0 ≤ b ∧ b ≤ 0xbf) ∧
        (0x80 ≤ b ∧ b ≤ 0xbf ∨ b ∈ CP1252_GREMLINS) ∧
        (0x80 ≤ c ∧ c ≤ 0xbf ∨ c ∈ CP1252_MORE_GREMLINS) := by
      rcases hcase with ⟨ha1, ha2, hb1, hb2, hc1, hc2⟩ |
        ⟨rfl, hb1, hb2, hc1, hc2⟩ | ⟨rfl, hbor, hcor⟩
      · exact ⟨⟨by omega, ha2⟩, fun he => absurd he (by omega),
          Or.inl ⟨hb1, hb2⟩, Or.inl ⟨hc1, hc2⟩⟩
      · exact ⟨⟨by norm_num, by norm_num⟩, fun _ => ⟨hb1, hb2⟩,
          Or.inl ⟨by omega, hb2⟩, Or.inl ⟨hc1, hc2⟩⟩
      · exact ⟨⟨by norm_num, by norm_num⟩, fun he => absurd he (by norm_num),
          hbor, hcor⟩
    obtain ⟨⟨ha1, ha2⟩, hE0, hbor, hcor⟩ := hnorm
    unfold fixMatch
    rcases hL : encodeLatin1 [a, b, c] with _ | e
    · have hrec : ∃ b2 c2, recode_from_windows [a, b, c] = some [a, b2, c2] ∧
          0x80 ≤ b2 ∧ b2 ≤ 0xbf ∧ 0x80 ≤ c2 ∧ c2 ≤ 0xbf ∧
          (a = 0xe0 → 0xa0 ≤ b2) := by
        have hanot : a ∉ CP1252_MORE_GREMLINS :=
          not_mem_more_of_le (by omega)
        have hbstep : ∃ b2, recode_from_windows [b, c] =
            Option.map (fun t => b2 :: t) (recode_from_windows [c]) ∧
            0x80 ≤ b2 ∧ b2 ≤ 0xbf ∧ (a = 0xe0 → 0xa0 ≤ b2) := by
          rcases hbor with ⟨hb1, hb2⟩ | hg
          · exact ⟨b, recode_cons_notmem _ (not_mem_more_of_le (by omega)),
              hb1, hb2, fun he => (hE0 he).1⟩
          · obtain ⟨m, hm, hm1, hm2⟩ := fixit_gremlin_byte (mem_more_of_gremlin hg)
            have hbge := gremlin_ge hg
            refine ⟨m, recode_cons_mem _ (mem_more_of_gremlin hg) hm,
              hm1, by omega, fun he => ?_⟩
            exact absurd (hE0 he).2 (by omega)
        have hcstep : ∃ c2, recode_from_windows [c] = some [c2] ∧
            0x80 ≤ c2 ∧ c2 ≤ 0xbf := by
          rcases hcor with ⟨hc1, hc2⟩ | hg
          · refine ⟨c, ?_, hc1, hc2⟩
            rw [recode_cons_notmem _ (not_mem_more_of_le (by omega))]
            rfl
          · obtain ⟨m, hm, hm1, hm2⟩ := fixit_gremlin_byte hg
            refine ⟨m, ?_, hm1, by omega⟩
            rw [recode_cons_mem _ hg hm]
            rfl
        obtain ⟨b2, hb2eq, hb2a, hb2b, hb2e⟩ := hbstep
        obtain ⟨c2, hc2eq, hc2a, hc2b⟩ := hcstep
        refine ⟨b2, c2, ?_, hb2a, hb2b, hc2a, hc2b, hb2e⟩
        rw [recode_cons_notmem _ hanot, hb2eq, hc2eq]
        rfl
      obtain ⟨b2, c2, hreq, hb2a, hb2b, hc2a, hc2b, hb2e⟩ := hrec
      rw [hreq]
      simp only []
      rw [encodeLatin1_ok [a, b2, c2] ?_]
      · refine ⟨_, decodeUtf8_three ha1 ha2 ?_ hb2b hc2a hc2b⟩
        by_cases he : a = 0xe0
        · rw [if_pos he]
          exact hb2e he
        · rw [if_neg he]
          exact hb2a
      · intro x hx
        simp at hx
        rcases hx with rfl | rfl | rfl <;> omega
    · obtain ⟨rfl, hball⟩ := encodeLatin1_some hL
      have hbff : b ≤ 0xff := hball b (by simp)
      have hcff : c ≤ 0xff := hball c (by simp)
      have hbc : 0x80 ≤ b ∧ b ≤ 0xbf := by
        rcases hbor with hcnt | hg
        · exact hcnt
        · exact absurd (gremlin_ge hg) (by omega)
      have hcc : 0x80 ≤ c ∧ c ≤ 0xbf := by
        rcases hcor with hcnt | hg
        · exact hcnt
        · exact absurd (fixit_gremlin_ge hg) (by omega)
      refine ⟨_, decodeUtf8_three ha1 ha2 ?_ hbc.2 hcc.1 hcc.2⟩
      by_cases he : a = 0xe0
      · rw [if_pos he]
        exact (hE0 he).1
      · rw [if_neg he]
        exact hbc.1

end fixit

namespace general

/-- Full characterisation of a successful scan: the input splits as
`pre ++ span ++ post`, the span matches at offset `pre.length`, `post`
is everything after the span, and no earlier offset matches. -/
theorem searchSplit_some : ∀ {l pre span post : List Nat},
    searchSplit l = some (pre, span, post) →
    l = pre ++ span ++ post ∧ matchAt (l.drop pre.length) = some span ∧
    post = l.drop (pre.length + span.length) ∧
    ∀ i < pre.length, matchAt (l.drop i) = none := by
  intro l
  induction l with
  | nil => intro pre span post h; simp [searchSplit] at h
  | cons c rest ih =>
    intro pre span post h
    rcases hm : matchAt (c :: rest) with _ | span'
    · simp only [searchSplit, hm, Option.map_eq_some'] at h
      obtain ⟨⟨pre', span'', post'⟩, hp, heq⟩ := h
      obtain ⟨rfl, rfl, rfl⟩ : pre = c :: pre' ∧ span = span'' ∧ post = post' := by
        simpa using heq.symm
      obtain ⟨hdec, hmat, hpost, hleft⟩ := ih hp
      refine ⟨by simpa using hdec, by simpa using hmat, ?_, ?_⟩
      · simpa [Nat.add_right_comm] using hpost
      · intro i hi
        match i with
        | 0 => exact hm
        | j + 1 =>
          simp only [List.drop_succ_cons]
          exact hleft j (by simpa using hi)
    · simp only [searchSplit, hm, Option.some.injEq] at h
      obtain ⟨rfl, rfl, rfl⟩ : pre = [] ∧ span = span' ∧
          post = List.drop span'.length (c :: rest) := by simpa using h.symm
      refine ⟨?_, hm, by simp, ?_⟩
      · simpa using matchAt_prefix hm
      · intro i hi
        simp at hi

/-- A scan returns nothing exactly when no offset matches. -/
theorem searchSplit_none_iff : ∀ {l : List Nat},
    searchSplit l = none ↔ ∀ i, matchAt (l.drop i) = none := by
  intro l
  induction l with
  | nil => simp [searchSplit, matchAt_nil]
  | cons c rest ih =>
    rcases hm : matchAt (c :: rest) with _ | span'
    · simp only [searchSplit, hm, Option.map_eq_none']
      rw [ih]
      constructor
      · intro hall i
        match i with
        | 0 => exact hm
        | j + 1 => simpa [List.drop_succ_cons] using hall j
      · intro hall j
        simpa [List.drop_succ_cons] using hall (j + 1)
    · simp only [searchSplit, hm]
      constructor
      · intro h; cases h
      · intro hall
        have := hall 0
        simp [hm] at this

/-- A successful scan leaves a strictly shorter remainder. -/
theorem searchSplit_some_lt {l pre span post : List Nat}
    (h : searchSplit l = some (pre, span, post)) :
    post.length < l.length := by
  obtain ⟨hdec, hmat, _, _⟩ := searchSplit_some h
  have hlen := matchAt_len hmat
  have : l.length = pre.length + span.length + post.length := by
    rw [hdec]
    simp [List.length_append, Nat.add_assoc]
  omega

end general

namespace fixit

/-- Characterisation of a successful scan with the `fixit.py` regex. -/
theorem searchSplit_some_fx : ∀ {l pre span post : List Nat},
    searchSplit l = some (pre, span, post) →
    l = pre ++ span ++ post ∧ matchAt (l.drop pre.length) = some span ∧
    post = l.drop (pre.length + span.length) ∧
    ∀ i < pre.length, matchAt (l.drop i) = none := by
  intro l
  induction l with
  | nil => intro pre span post h; simp [searchSplit] at h
  | cons c rest ih =>
    intro pre span post h
    rcases hm : matchAt (c :: rest) with _ | span'
    · simp only [searchSplit, hm, Option.map_eq_some'] at h
      obtain ⟨⟨pre', span'', post'⟩, hp, heq⟩ := h
      obtain ⟨rfl, rfl, rfl⟩ : pre = c :: pre' ∧ span = span'' ∧ post = post' := by
        simpa using heq.symm
      obtain ⟨hdec, hmat, hpost, hleft⟩ := ih hp
      refine ⟨by simpa using hdec, by simpa using hmat, ?_, ?_⟩
      · simpa [Nat.add_right_comm] using hpost
      · intro i hi
        match i with
        | 0 => exact hm
        | j + 1 =>
          simp only [List.drop_succ_cons]
          exact hleft j (by simpa using hi)
    · simp only [searchSplit, hm, Option.some.injEq] at h
      obtain ⟨rfl, rfl, rfl⟩ : pre = [] ∧ span = span' ∧
          post = List.drop span'.length (c :: rest) := by simpa using h.symm
      refine ⟨?_, hm, by simp, ?_⟩
      · simpa using matchAt_prefix_fx hm
      · intro i hi
        simp at hi

/-- A scan with the `fixit.py` regex returns nothing exactly when no
offset matches. -/
theorem searchSplit_none_iff_fx : ∀ {l : List Nat},
    searchSplit l = none ↔ ∀ i, matchAt (l.drop i) = none := by
  intro l
  induction l with
  | nil => simp [searchSplit, matchAt_nil_fx]
  | cons c rest ih =>
    rcases hm : matchAt (c :: rest) with _ | span'
    · simp only [searchSplit, hm, Option.map_eq_none']
      rw [ih]
      constructor
      · intro hall i
        match i with
        | 0 => exact hm
        | j + 1 => simpa [List.drop_succ_cons] using hall j
      · intro hall j
        simpa [List.drop_succ_cons] using hall (j + 1)
    · simp only [searchSplit, hm]
      constructor
      · intro h; cases h
      · intro hall
        have := hall 0
        simp [hm] at this

theorem searchSplit_some_lt_fx {l pre span post : List Nat}
    (h : searchSplit l = some (pre, span, post)) :
    post.length < l.length := by
  obtain ⟨hdec, hmat, _, _⟩ := searchSplit_some_fx h
  have hlen := matchAt_len_fx hmat
  have : l.length = pre.length + span.length + post.length := by
    rw [hdec]
    simp [List.length_append, Nat.add_assoc]
  omega

end fixit

namespace general

set_option linter.unusedVariables false in
/-- One inner pass of `fix_bad_unicode` in `metanl/general.py` (the
`while remaining:` loop, lines 325–347): repeatedly find the next match,
repair it, and continue after it, concatenating the untouched text in
between.  `none` models an exception escaping the loop. -/
def fixOnePass (l : List Nat) : Option (List Nat) :=
  match hs : searchSplit l with
  | none => some l
  | some (pre, span, post) =>
    match fixMatch span with
    | none => none
    | some fixed =>
      Option.map (fun r => pre ++ (fixed ++ r)) (fixOnePass post)
termination_by l.length
decreasing_by exact searchSplit_some_lt hs

theorem fixOnePass_no_match {l : List Nat} (h : searchSplit l = none) :
    fixOnePass l = some l := by
  rw [fixOnePass, h]

theorem fixOnePass_matched {l pre span post fixed : List Nat}
    (hs : searchSplit l = some (pre, span, post))
    (hf : fixMatch span = some fixed) :
    fixOnePass l = Option.map (fun r => pre ++ (fixed ++ r)) (fixOnePass post) := by
  rw [fixOnePass, hs]
  simp only []
  rw [hf]

theorem fixOnePass_raise {l pre span post : List Nat}
    (hs : searchSplit l = some (pre, span, post))
    (hf : fixMatch span = none) :
    fixOnePass l = none := by
  rw [fixOnePass, hs]
  simp only []
  rw [hf]

end general

/-- Modelled from the spec, §4.4: a "suspicious" code unit is one the
classification tables can involve in a match — the Latin-1 high range
0x80–0xFF together with the gremlin characters. -/
def suspicious (c : Nat) : Bool :=
  decide (0x80 ≤ c ∧ c ≤ 0xff) || decide (c ∈ CP1252_GREMLINS) ||
    decide (c ∈ general.CP1252_MORE_GREMLINS)

/-- The number of suspicious code units of a string. -/
def suspiciousCount (l : List Nat) : Nat := l.countP suspicious

theorem suspicious_of {x : Nat}
    (h : (0x80 ≤ x ∧ x ≤ 0xff) ∨ x ∈ CP1252_GREMLINS ∨
      x ∈ general.CP1252_MORE_GREMLINS) : suspicious x = true := by
  unfold suspicious
  rcases h with h | h | h
  · simp [h.1, h.2]
  · simp [h]
  · simp [h]

theorem mem_more_split {x : Nat} (h : x ∈ fixit.CP1252_MORE_GREMLINS) :
    x ∈ CP1252_GREMLINS ∨ x ∈ general.CP1252_MORE_GREMLINS := by
  have h' : x ∈ CP1252_GREMLINS ++ general.CP1252_MORE_GREMLINS := h
  exact List.mem_append.1 h'

theorem suspiciousCount_append (l₁ l₂ : List Nat) :
    suspiciousCount (l₁ ++ l₂) = suspiciousCount l₁ + suspiciousCount l₂ :=
  List.countP_append _ _ _

theorem suspiciousCount_le_length (l : List Nat) :
    suspiciousCount l ≤ l.length :=
  List.countP_le_length _

namespace general

/-- Every character of a matched span is suspicious. -/
theorem span_suspicious {l span : List Nat} (h : matchAt l = some span) :
    suspiciousCount span = span.length := by
  unfold suspiciousCount
  rw [List.countP_eq_length]
  intro x hx
  rcases matchAt_shapes h with ⟨a, b, t, _, rfl, hcase⟩ |
    ⟨a, b, c, t, _, rfl, hcase⟩
  · apply suspicious_of
    simp only [List.mem_cons, List.not_mem_nil, or_false] at hx
    rcases hx with rfl | rfl
    · rcases hcase with ⟨h1, h2, _⟩ | ⟨h1, h2, _⟩ | ⟨rfl, _⟩
      · exact Or.inl ⟨by omega, by omega⟩
      · exact Or.inl ⟨by omega, by omega⟩
      · exact Or.inl ⟨by norm_num, by norm_num⟩
    · rcases hcase with ⟨_, _, hb1, hb2⟩ | ⟨_, _, hbor⟩ | ⟨_, hbor⟩
      · exact Or.inl ⟨by omega, by omega⟩
      · rcases hbor with hc | hg
        · exact Or.inl ⟨by omega, by omega⟩
        · exact Or.inr (Or.inl hg)
      · rcases hbor with hc | hg | hg
        · exact Or.inl ⟨by omega, by omega⟩
        · exact Or.inr (Or.inl hg)
        · exact Or.inr (Or.inr hg)
  · apply suspicious_of
    simp only [List.mem_cons, List.not_mem_nil, or_false] at hx
    rcases hx with rfl | rfl | rfl
    · rcases hcase with ⟨h1, h2, _⟩ | ⟨rfl, _⟩ | ⟨rfl, _⟩
      · exact Or.inl ⟨by omega, by omega⟩
      · exact Or.inl ⟨by norm_num, by norm_num⟩
      · exact Or.inl ⟨by norm_num, by norm_num⟩
    · rcases hcase with ⟨_, _, hb1, hb2, _⟩ | ⟨_, hb1, hb2, _⟩ | ⟨_, hbor, _⟩
      · exact Or.inl ⟨by omega, by omega⟩
      · exact Or.inl ⟨by omega, by omega⟩
      · rcases hbor with hc | hg
        · exact Or.inl ⟨by omega, by omega⟩
        · exact Or.inr (Or.inl hg)
    · rcases hcase with ⟨_, _, _, _, hc1, hc2⟩ | ⟨_, _, _, hc1, hc2⟩ |
        ⟨_, _, hcor⟩
      · exact Or.inl ⟨by omega, by omega⟩
      · exact Or.inl ⟨by omega, by omega⟩
      · rcases hcor with hc | hg | hg
        · exact Or.inl ⟨by omega, by omega⟩
        · exact Or.inr (Or.inl hg)
        · exact Or.inr (Or.inr hg)

/-- Size bounds for one inner pass: the output never grows, and it
strictly shrinks — in length and in suspicious-codepoint count — when a
match was found. -/
theorem fixOnePass_bounds : ∀ n : Nat, ∀ {l r : List Nat}, l.length ≤ n →
    fixOnePass l = some r →
    (r.length ≤ l.length ∧ suspiciousCount r ≤ suspiciousCount l) ∧
    (searchSplit l ≠ none →
      r.length < l.length ∧ suspiciousCount r < suspiciousCount l) := by
  intro n
  induction n with
  | zero =>
    intro l r hn h
    have hnil : l = [] := List.eq_nil_of_length_eq_zero (by omega)
    subst hnil
    have he : searchSplit ([] : List Nat) = none := rfl
    rw [fixOnePass_no_match he] at h
    obtain rfl := Option.some.inj h
    exact ⟨⟨le_rfl, le_rfl⟩, fun hne => absurd he hne⟩
  | succ n ih =>
    intro l r hn h
    rcases hsq : searchSplit l with _ | ⟨pre, span, post⟩
    · rw [fixOnePass_no_match hsq] at h
      obtain rfl := Option.some.inj h
      exact ⟨⟨le_rfl, le_rfl⟩, fun hne => absurd rfl hne⟩
    · rcases hf : fixMatch span with _ | fixed
      · rw [fixOnePass_raise hsq hf] at h
        cases h
      · rw [fixOnePass_matched hsq hf] at h
        rcases hr : fixOnePass post with _ | r'
        · rw [hr] at h
          cases h
        · rw [hr] at h
          simp only [Option.map_some', Option.some.injEq] at h
          obtain ⟨hdec, hmat, hpost, _⟩ := searchSplit_some hsq
          have hlen2 := matchAt_len hmat
          have hsusp := span_suspicious hmat
          have hfixed : ∃ ch, fixed = [ch] := by
            rcases fixMatch_disj hmat with hno | ⟨ch, hch⟩
            · rw [hno] at hf
              cases hf
            · rw [hch] at hf
              exact ⟨ch, (Option.some.inj hf).symm⟩
          obtain ⟨ch, rfl⟩ := hfixed
          have hpostlt : post.length < l.length := searchSplit_some_lt hsq
          have hih := ih (l := post) (r := r') (by omega) hr
          have hRlen : r.length = pre.length + (1 + r'.length) := by
            rw [← h]
            simp
            omega
          have hLlen : l.length = pre.length + (span.length + post.length) := by
            rw [hdec]
            simp
          have hRsc : suspiciousCount r =
              suspiciousCount pre + (suspiciousCount [ch] +
                suspiciousCount r') := by
            rw [← h, suspiciousCount_append, suspiciousCount_append]
          have hLsc : suspiciousCount l =
              suspiciousCount pre + (span.length + suspiciousCount post) := by
            rw [hdec, suspiciousCount_append, suspiciousCount_append, hsusp]
            omega
          have hfsc : suspiciousCount [ch] ≤ 1 :=
            suspiciousCount_le_length _
          obtain ⟨⟨hih1, hih2⟩, _⟩ := hih
          refine ⟨⟨by omega, by omega⟩, fun _ => ⟨by omega, by omega⟩⟩

end general

namespace general

set_option linter.unusedVariables false in
/-- The outer convergence loop of `fix_bad_unicode` in
`metanl/general.py` (lines 349–354): run one pass; if the result still
contains a match, run the whole function again on it.  The second
component counts the recursive re-invocations. -/
def fixAux (l : List Nat) : Option (List Nat × Nat) :=
  match h1 : fixOnePass l with
  | none => none
  | some result =>
    match h2 : searchSplit result with
    | none => some (result, 0)
    | some _ => Option.map (fun p => (p.1, p.2 + 1)) (fixAux result)
termination_by l.length
decreasing_by
  rcases hs : searchSplit l with _ | t
  · rw [fixOnePass_no_match hs] at h1
    obtain rfl := Option.some.inj h1
    rw [hs] at h2
    simp at h2
  · exact ((fixOnePass_bounds l.length le_rfl h1).2
      (fun hc => by rw [hs] at hc; cases hc)).1

/-- `fix_bad_unicode` from `metanl/general.py`: the repaired string, or
`none` when an exception escapes. -/
def fix_bad_unicode (l : List Nat) : Option (List Nat) :=
  Option.map Prod.fst (fixAux l)

theorem fixAux_raise {l : List Nat} (h : fixOnePass l = none) :
    fixAux l = none := by
  rw [fixAux, h]

theorem fixAux_done {l result : List Nat} (h1 : fixOnePass l = some result)
    (h2 : searchSplit result = none) : fixAux l = some (result, 0) := by
  rw [fixAux, h1]
  simp only []
  rw [h2]

theorem fixAux_again {l result : List Nat} {t : List Nat × List Nat × List Nat}
    (h1 : fixOnePass l = some result) (h2 : searchSplit result = some t) :
    fixAux l = Option.map (fun p => (p.1, p.2 + 1)) (fixAux result) := by
  rw [fixAux, h1]
  simp only []
  rw [h2]

end general

namespace general

/-- Main invariants of the convergence loop: the result never grows, it
contains no further match, the number of re-invocations is bounded by
the suspicious-codepoint count of the input, and the result is strictly
shorter whenever the input contained a match. -/
theorem fixAux_spec : ∀ n : Nat, ∀ {l r : List Nat} {m : Nat},
    l.length ≤ n → fixAux l = some (r, m) →
    r.length ≤ l.length ∧ searchSplit r = none ∧ m ≤ suspiciousCount l ∧
    (searchSplit l ≠ none → r.length < l.length) := by
  intro n
  induction n with
  | zero =>
    intro l r m hn h
    have hnil : l = [] := List.eq_nil_of_length_eq_zero (by omega)
    subst hnil
    have he : searchSplit ([] : List Nat) = none := rfl
    rw [fixAux_done (fixOnePass_no_match he) he] at h
    obtain ⟨rfl, rfl⟩ : ([] : List Nat) = r ∧ 0 = m := by simpa using h
    exact ⟨le_rfl, he, Nat.zero_le _, fun hne => absurd he hne⟩
  | succ n ih =>
    intro l r m hn h
    rcases h1 : fixOnePass l with _ | result
    · rw [fixAux_raise h1] at h
      cases h
    · rcases h2 : searchSplit result with _ | t
      · rw [fixAux_done h1 h2] at h
        obtain ⟨rfl, rfl⟩ : result = r ∧ 0 = m := by simpa using h
        have hb := fixOnePass_bounds l.length le_rfl h1
        exact ⟨hb.1.1, h2, Nat.zero_le _, fun hne => (hb.2 hne).1⟩
      · rw [fixAux_again h1 h2] at h
        rcases haux : fixAux result with _ | p
        · rw [haux] at h
          cases h
        · rw [haux] at h
          simp only [Option.map_some', Option.some.injEq] at h
          obtain ⟨rfl, rfl⟩ : p.1 = r ∧ p.2 + 1 = m := by
            have h' := congrArg Prod.fst h
            have h'' := congrArg Prod.snd h
            exact ⟨h', h''⟩
          have hlne : searchSplit l ≠ none := by
            rcases hs : searchSplit l with _ | t0
            · rw [fixOnePass_no_match hs] at h1
              obtain rfl := Option.some.inj h1
              rw [hs] at h2
              cases h2
            · simp [hs]
          have hstep := (fixOnePass_bounds l.length le_rfl h1).2 hlne
          have hih := ih (l := result) (r := p.1) (m := p.2)
            (by omega) (by rw [haux])
          refine ⟨by omega, hih.2.1, by omega, fun _ => by omega⟩
end general

namespace fixit

/-- Every character of a span matched by the `fixit.py` regex is
suspicious. -/
theorem span_suspicious_fx {l span : List Nat} (h : matchAt l = some span) :
    suspiciousCount span = span.length := by
  unfold suspiciousCount
  rw [List.countP_eq_length]
  intro x hx
  rcases matchAt_shapes_fx h with ⟨a, b, t, _, rfl, hcase⟩ |
    ⟨a, b, c, t, _, rfl, hcase⟩
  · apply suspicious_of
    simp only [List.mem_cons, List.not_mem_nil, or_false] at hx
    rcases hx with rfl | rfl
    · rcases hcase with ⟨h1, h2, _⟩ | ⟨h1, h2, _⟩ | ⟨rfl, _⟩
      · exact Or.inl ⟨by omega, by omega⟩
      · exact Or.inl ⟨by omega, by omega⟩
      · exact Or.inl ⟨by norm_num, by norm_num⟩
    · rcases hcase with ⟨_, _, hb1, hb2⟩ | ⟨_, _, hg⟩ | ⟨_, hbor⟩
      · exact Or.inl ⟨by omega, by omega⟩
      · exact Or.inr (Or.inl hg)
      · rcases hbor with hc | hg
        · exact Or.inl ⟨by omega, by omega⟩
        · exact Or.inr (mem_more_split hg)
  · apply suspicious_of
    simp only [List.mem_cons, List.not_mem_nil, or_false] at hx
    rcases hx with rfl | rfl | rfl
    · rcases hcase with ⟨h1, h2, _⟩ | ⟨rfl, _⟩ | ⟨rfl, _⟩
      · exact Or.inl ⟨by omega, by omega⟩
      · exact Or.inl ⟨by norm_num, by norm_num⟩
      · exact Or.inl ⟨by norm_num, by norm_num⟩
    · rcases hcase with ⟨_, _, hb1, hb2, _⟩ | ⟨_, hb1, hb2, _⟩ | ⟨_, hbor, _⟩
      · exact Or.inl ⟨by omega, by omega⟩
      · exact Or.inl ⟨by omega, by omega⟩
      · rcases hbor with hc | hg
        · exact Or.inl ⟨by omega, by omega⟩
        · exact Or.inr (Or.inl hg)
    · rcases hcase with ⟨_, _, _, _, hc1, hc2⟩ | ⟨_, _, _, hc1, hc2⟩ |
        ⟨_, _, hcor⟩
      · exact Or.inl ⟨by omega, by omega⟩
      · exact Or.inl ⟨by omega, by omega⟩
      · rcases hcor with hc | hg
        · exact Or.inl ⟨by omega, by omega⟩
        · exact Or.inr (mem_more_split hg)

set_option linter.unusedVariables false in
/-- One inner pass of `fix_bad_unicode` in `metanl/fixit.py` (the
`while remaining:` loop, lines 162–187). -/
def fixOnePass (l : List Nat) : Option (List Nat) :=
  match hs : searchSplit l with
  | none => some l
  | some (pre, span, post) =>
    match fixMatch span with
    | none => none
    | some fixed =>
      Option.map (fun r => pre ++ (fixed ++ r)) (fixOnePass post)
termination_by l.length
decreasing_by exact searchSplit_some_lt_fx hs

theorem fixOnePass_no_match_fx {l : List Nat} (h : searchSplit l = none) :
    fixOnePass l = some l := by
  rw [fixOnePass, h]

theorem fixOnePass_matched_fx {l pre span post fixed : List Nat}
    (hs : searchSplit l = some (pre, span, post))
    (hf : fixMatch span = some fixed) :
    fixOnePass l = Option.map (fun r => pre ++ (fixed ++ r)) (fixOnePass post) := by
  rw [fixOnePass, hs]
  simp only []
  rw [hf]

theorem fixOnePass_bounds_fx : ∀ n : Nat, ∀ {l r : List Nat},
    l.length ≤ n → fixOnePass l = some r →
    (r.length ≤ l.length ∧ suspiciousCount r ≤ suspiciousCount l) ∧
    (searchSplit l ≠ none →
      r.length < l.length ∧ suspiciousCount r < suspiciousCount l) := by
  intro n
  induction n with
  | zero =>
    intro l r hn h
    have hnil : l = [] := List.eq_nil_of_length_eq_zero (by omega)
    subst hnil
    have he : searchSplit ([] : List Nat) = none := rfl
    rw [fixOnePass_no_match_fx he] at h
    obtain rfl := Option.some.inj h
    exact ⟨⟨le_rfl, le_rfl⟩, fun hne => absurd he hne⟩
  | succ n ih =>
    intro l r hn h
    rcases hsq : searchSplit l with _ | ⟨pre, span, post⟩
    · rw [fixOnePass_no_match_fx hsq] at h
      obtain rfl := Option.some.inj h
      exact ⟨⟨le_rfl, le_rfl⟩, fun hne => absurd rfl hne⟩
    · obtain ⟨hdec, hmat, hpost, _⟩ := searchSplit_some_fx hsq
      obtain ⟨ch, hch⟩ := fixMatch_one hmat
      rw [fixOnePass_matched_fx hsq hch] at h
      rcases hr : fixOnePass post with _ | r'
      · rw [hr] at h
        cases h
      · rw [hr] at h
        simp only [Option.map_some', Option.some.injEq] at h
        have hlen2 := matchAt_len_fx hmat
        have hsusp := span_suspicious_fx hmat
        have hpostlt : post.length < l.length := searchSplit_some_lt_fx hsq
        have hih := ih (l := post) (r := r') (by omega) hr
        have hRlen : r.length = pre.length + (1 + r'.length) := by
          rw [← h]
          simp
          omega
        have hLlen : l.length = pre.length + (span.length + post.length) := by
          rw [hdec]
          simp
        have hRsc : suspiciousCount r =
            suspiciousCount pre + (suspiciousCount [ch] +
              suspiciousCount r') := by
          rw [← h, suspiciousCount_append, suspiciousCount_append]
        have hLsc : suspiciousCount l =
            suspiciousCount pre + (span.length + suspiciousCount post) := by
          rw [hdec, suspiciousCount_append, suspiciousCount_append, hsusp]
          omega
        have hfsc : suspiciousCount [ch] ≤ 1 :=
          suspiciousCount_le_length _
        obtain ⟨⟨hih1, hih2⟩, _⟩ := hih
        refine ⟨⟨by omega, by omega⟩, fun _ => ⟨by omega, by omega⟩⟩

/-- The `fixit.py` inner pass never raises. -/
theorem fixOnePass_total_fx : ∀ n : Nat, ∀ l : List Nat, l.length ≤ n →
    ∃ r, fixOnePass l = some r := by
  intro n
  induction n with
  | zero =>
    intro l hn
    have hnil : l = [] := List.eq_nil_of_length_eq_zero (by omega)
    subst hnil
    exact ⟨[], fixOnePass_no_match_fx rfl⟩
  | succ n ih =>
    intro l hn
    rcases hsq : searchSplit l with _ | ⟨pre, span, post⟩
    · exact ⟨l, fixOnePass_no_match_fx hsq⟩
    · obtain ⟨hdec, hmat, hpost, _⟩ := searchSplit_some_fx hsq
      obtain ⟨ch, hch⟩ := fixMatch_one hmat
      have hpostlt : post.length < l.length := searchSplit_some_lt_fx hsq
      obtain ⟨r', hr⟩ := ih post (by omega)
      exact ⟨pre ++ ([ch] ++ r'), by
        rw [fixOnePass_matched_fx hsq hch, hr]
        rfl⟩

set_option linter.unusedVariables false in
/-- The outer convergence loop of `fix_bad_unicode` in `metanl/fixit.py`
(lines 189–194), with a count of the recursive re-invocations. -/
def fixAux (l : List Nat) : Option (List Nat × Nat) :=
  match h1 : fixOnePass l with
  | none => none
  | some result =>
    match h2 : searchSplit result with
    | none => some (result, 0)
    | some _ => Option.map (fun p => (p.1, p.2 + 1)) (fixAux result)
termination_by l.length
decreasing_by
  rcases hs : searchSplit l with _ | t
  · rw [fixOnePass_no_match_fx hs] at h1
    obtain rfl := Option.some.inj h1
    rw [hs] at h2
    simp at h2
  · exact ((fixOnePass_bounds_fx l.length le_rfl h1).2
      (fun hc => by rw [hs] at hc; cases hc)).1

/-- `fix_bad_unicode` from `metanl/fixit.py`. -/
def fix_bad_unicode (l : List Nat) : Option (List Nat) :=
  Option.map Prod.fst (fixAux l)

theorem fixAux_done_fx {l result : List Nat} (h1 : fixOnePass l = some result)
    (h2 : searchSplit result = none) : fixAux l = some (result, 0) := by
  rw [fixAux, h1]
  simp only []
  rw [h2]

theorem fixAux_again_fx {l result : List Nat}
    {t : List Nat × List Nat × List Nat}
    (h1 : fixOnePass l = some result) (h2 : searchSplit result = some t) :
    fixAux l = Option.map (fun p => (p.1, p.2 + 1)) (fixAux result) := by
  rw [fixAux, h1]
  simp only []
  rw [h2]

theorem fixAux_spec_fx : ∀ n : Nat, ∀ {l r : List Nat} {m : Nat},
    l.length ≤ n → fixAux l = some (r, m) →
    r.length ≤ l.length ∧ searchSplit r = none ∧ m ≤ suspiciousCount l ∧
    (searchSplit l ≠ none → r.length < l.length) := by
  intro n
  induction n with
  | zero =>
    intro l r m hn h
    have hnil : l = [] := List.eq_nil_of_length_eq_zero (by omega)
    subst hnil
    have he : searchSplit ([] : List Nat) = none := rfl
    rw [fixAux_done_fx (fixOnePass_no_match_fx he) he] at h
    obtain ⟨rfl, rfl⟩ : ([] : List Nat) = r ∧ 0 = m := by simpa using h
    exact ⟨le_rfl, he, Nat.zero_le _, fun hne => absurd he hne⟩
  | succ n ih =>
    intro l r m hn h
    rcases h1 : fixOnePass l with _ | result
    · rw [fixAux, h1] at h
      cases h
    · rcases h2 : searchSplit result with _ | t
      · rw [fixAux_done_fx h1 h2] at h
        obtain ⟨rfl, rfl⟩ : result = r ∧ 0 = m := by simpa using h
        have hb := fixOnePass_bounds_fx l.length le_rfl h1
        exact ⟨hb.1.1, h2, Nat.zero_le _, fun hne => (hb.2 hne).1⟩
      · rw [fixAux_again_fx h1 h2] at h
        rcases haux : fixAux result with _ | p
        · rw [haux] at h
          cases h
        · rw [haux] at h
          simp only [Option.map_some', Option.some.injEq] at h
          obtain ⟨rfl, rfl⟩ : p.1 = r ∧ p.2 + 1 = m := by
            have h' := congrArg Prod.fst h
            have h'' := congrArg Prod.snd h
            exact ⟨h', h''⟩
          have hlne : searchSplit l ≠ none := by
            rcases hs : searchSplit l with _ | t0
            · rw [fixOnePass_no_match_fx hs] at h1
              obtain rfl := Option.some.inj h1
              rw [hs] at h2
              cases h2
            · simp [hs]
          have hstep := (fixOnePass_bounds_fx l.length le_rfl h1).2 hlne
          have hih := ih (l := result) (r := p.1) (m := p.2)
            (by omega) (by rw [haux])
          refine ⟨by omega, hih.2.1, by omega, fun _ => by omega⟩

/-- The whole `fixit.py` fixed-point driver never raises. -/
theorem fixAux_total_fx : ∀ n : Nat, ∀ l : List Nat, l.length ≤ n →
    ∃ r m, fixAux l = some (r, m) := by
  intro n
  induction n with
  | zero =>
    intro l hn
    have hnil : l = [] := List.eq_nil_of_length_eq_zero (by omega)
    subst hnil
    have he : searchSplit ([] : List Nat) = none := rfl
    exact ⟨[], 0, fixAux_done_fx (fixOnePass_no_match_fx he) he⟩
  | succ n ih =>
    intro l hn
    obtain ⟨result, h1⟩ := fixOnePass_total_fx l.length l le_rfl
    rcases h2 : searchSplit result with _ | t
    · exact ⟨result, 0, fixAux_done_fx h1 h2⟩
    · have hlne : searchSplit l ≠ none := by
        rcases hs : searchSplit l with _ | t0
        · rw [fixOnePass_no_match_fx hs] at h1
          obtain rfl := Option.some.inj h1
          rw [hs] at h2
          cases h2
        · simp [hs]
      have hstep := (fixOnePass_bounds_fx l.length le_rfl h1).2 hlne
      obtain ⟨r, m, hrm⟩ := ih result (by omega)
      refine ⟨r, m + 1, ?_⟩
      rw [fixAux_again_fx h1 h2, hrm]
      rfl

end fixit

namespace general

theorem fix_inv {l r : List Nat} (h : fix_bad_unicode l = some r) :
    ∃ m, fixAux l = some (r, m) := by
  unfold fix_bad_unicode at h
  rcases haux : fixAux l with _ | p
  · rw [haux] at h
    cases h
  · rw [haux] at h
    simp only [Option.map_some', Option.some.injEq] at h
    refine ⟨p.2, ?_⟩
    exact congrArg some (Prod.ext h rfl)

theorem fix_clean {l : List Nat} (h : searchSplit l = none) :
    fix_bad_unicode l = some l := by
  unfold fix_bad_unicode
  rw [fixAux_done (fixOnePass_no_match h) h]
  rfl

theorem fix_output_clean {l r : List Nat} (h : fix_bad_unicode l = some r) :
    searchSplit r = none := by
  obtain ⟨m, hm⟩ := fix_inv h
  exact (fixAux_spec l.length le_rfl hm).2.1

theorem searchSplit_head {l span : List Nat} (h : matchAt l = some span) :
    searchSplit l = some ([], span, l.drop span.length) := by
  match l with
  | [] => simp [matchAt] at h
  | c :: rest =>
    simp only [searchSplit]
    rw [h]

theorem searchSplit_single (a : Nat) : searchSplit [a] = none := by
  simp [searchSplit, matchAt_single]

end general

namespace fixit

theorem fix_inv_fx {l r : List Nat} (h : fix_bad_unicode l = some r) :
    ∃ m, fixAux l = some (r, m) := by
  unfold fix_bad_unicode at h
  rcases haux : fixAux l with _ | p
  · rw [haux] at h
    cases h
  · rw [haux] at h
    simp only [Option.map_some', Option.some.injEq] at h
    refine ⟨p.2, ?_⟩
    exact congrArg some (Prod.ext h rfl)

theorem fix_clean_fx {l : List Nat} (h : searchSplit l = none) :
    fix_bad_unicode l = some l := by
  unfold fix_bad_unicode
  rw [fixAux_done_fx (fixOnePass_no_match_fx h) h]
  rfl

theorem fix_output_clean_fx {l r : List Nat} (h : fix_bad_unicode l = some r) :
    searchSplit r = none := by
  obtain ⟨m, hm⟩ := fix_inv_fx h
  exact (fixAux_spec_fx l.length le_rfl hm).2.1

theorem searchSplit_head_fx {l span : List Nat} (h : matchAt l = some span) :
    searchSplit l = some ([], span, l.drop span.length) := by
  match l with
  | [] => simp [matchAt] at h
  | c :: rest =>
    simp only [searchSplit]
    rw [h]

theorem searchSplit_single_fx (a : Nat) : searchSplit [a] = none := by
  simp [searchSplit, matchAt_single_fx]

end fixit

/-- The six corruption shapes of spec §4.2 as independent anchored
matchers, numbered 1–6 in the fixed priority order, following the six
alternatives of `BAD_UNICODE_SEQUENCES` in `metanl/general.py`.  Used to
state the scanner's tie-breaking behaviour declaratively. -/
def shapeMatchSpec : Nat → List Nat → Option (List Nat)
  | 1, a :: b :: _ =>
    if 0xc2 ≤ a ∧ a ≤ 0xdf ∧ 0x80 ≤ b ∧ b ≤ 0xbf then some [a, b] else none
  | 2, a :: b :: _ =>
    if 0xc3 ≤ a ∧ a ≤ 0xc9 ∧ (0x80 ≤ b ∧ b ≤ 0xbf ∨ b ∈ CP1252_GREMLINS)
      then some [a, b] else none
  | 3, a :: b :: _ =>
    if a = 0xc3 ∧ (0x80 ≤ b ∧ b ≤ 0xbf ∨ b ∈ CP1252_GREMLINS ∨
        b ∈ general.CP1252_MORE_GREMLINS)
      then some [a, b] else none
  | 4, a :: b :: c :: _ =>
    if 0xe1 ≤ a ∧ a ≤ 0xef ∧ 0x80 ≤ b ∧ b ≤ 0xbf ∧ 0x80 ≤ c ∧ c ≤ 0xbf
      then some [a, b, c] else none
  | 5, a :: b :: c :: _ =>
    if a = 0xe0 ∧ 0xa0 ≤ b ∧ b ≤ 0xbf ∧ 0x80 ≤ c ∧ c ≤ 0xbf
      then some [a, b, c] else none
  | 6, a :: b :: c :: _ =>
    if a = 0xe2 ∧ (0x80 ≤ b ∧ b ≤ 0xbf ∨ b ∈ CP1252_GREMLINS) ∧
        (0x80 ≤ c ∧ c ≤ 0xbf ∨ c ∈ CP1252_GREMLINS ∨
          c ∈ general.CP1252_MORE_GREMLINS)
      then some [a, b, c] else none
  | _, _ => none

namespace general

/-- The scanner's anchored matcher returns the first shape, in the fixed
priority order 1–6, that matches at the current position. -/
theorem matchAt_priority {l span : List Nat} (h : matchAt l = some span) :
    ∃ k, 1 ≤ k ∧ k ≤ 6 ∧ shapeMatchSpec k l = some span ∧
      ∀ j, 1 ≤ j → j < k → shapeMatchSpec j l = none := by
  match l with
  | [] => simp [matchAt] at h
  | [a] => simp [matchAt] at h
  | a :: b :: rest =>
    simp only [matchAt] at h
    split_ifs at h with h1 h2 h3
    · refine ⟨1, le_rfl, by norm_num, ?_, ?_⟩
      · simp only [shapeMatchSpec]
        rw [if_pos h1]
        exact h
      · intro j hj1 hj2
        omega
    · refine ⟨2, by norm_num, by norm_num, ?_, ?_⟩
      · simp only [shapeMatchSpec]
        rw [if_pos h2]
        exact h
      · intro j hj1 hj2
        interval_cases j
        simp only [shapeMatchSpec]
        rw [if_neg h1]
    · refine ⟨3, by norm_num, by norm_num, ?_, ?_⟩
      · simp only [shapeMatchSpec]
        rw [if_pos h3]
        exact h
      · intro j hj1 hj2
        interval_cases j
        · simp only [shapeMatchSpec]
          rw [if_neg h1]
        · simp only [shapeMatchSpec]
          rw [if_neg h2]
    · match rest with
      | [] => simp at h
      | c :: t =>
        simp only [] at h
        split_ifs at h with h4 h5 h6
        · refine ⟨4, by norm_num, by norm_num, ?_, ?_⟩
          · simp only [shapeMatchSpec]
            rw [if_pos h4]
            exact h
          · intro j hj1 hj2
            interval_cases j
            · simp only [shapeMatchSpec]
              rw [if_neg h1]
            · simp only [shapeMatchSpec]
              rw [if_neg h2]
            · simp only [shapeMatchSpec]
              rw [if_neg h3]
        · refine ⟨5, by norm_num, by norm_num, ?_, ?_⟩
          · simp only [shapeMatchSpec]
            rw [if_pos h5]
            exact h
          · intro j hj1 hj2
            interval_cases j
            · simp only [shapeMatchSpec]
              rw [if_neg h1]
            · simp only [shapeMatchSpec]
              rw [if_neg h2]
            · simp only [shapeMatchSpec]
              rw [if_neg h3]
            · simp only [shapeMatchSpec]
              rw [if_neg h4]
        · refine ⟨6, by norm_num, le_rfl, ?_, ?_⟩
          · simp only [shapeMatchSpec]
            rw [if_pos h6]
            exact h
          · intro j hj1 hj2
            interval_cases j
            · simp only [shapeMatchSpec]
              rw [if_neg h1]
            · simp only [shapeMatchSpec]
              rw [if_neg h2]
            · simp only [shapeMatchSpec]
              rw [if_neg h3]
            · simp only [shapeMatchSpec]
              rw [if_neg h4]
            · simp only [shapeMatchSpec]
              rw [if_neg h5]

end general

theorem utf8Encode_one {c : Nat} (h : c ≤ 0x7f) : utf8Encode c = [c] := by
  unfold utf8Encode
  rw [if_pos h]

theorem utf8Encode_two {c : Nat} (h1 : 0x80 ≤ c) (h2 : c ≤ 0x7ff) :
    utf8Encode c = [0xc0 + c / 0x40, 0x80 + c % 0x40] := by
  unfold utf8Encode
  rw [if_neg (by omega), if_pos h2]

theorem utf8Encode_three {c : Nat} (h1 : 0x800 ≤ c) (h2 : c ≤ 0xffff) :
    utf8Encode c =
      [0xe0 + c / 0x1000, 0x80 + c / 0x40 % 0x40, 0x80 + c % 0x40] := by
  unfold utf8Encode
  rw [if_neg (by omega), if_neg (by omega), if_pos h2]

theorem roundtrip_two_decode {c : Nat} (h1 : 0x80 ≤ c) (h2 : c ≤ 0x7ff) :
    decodeUtf8 [0xc0 + c / 0x40, 0x80 + c % 0x40] = some [c] := by
  rw [decodeUtf8_two (by omega) (by omega) (by omega) (by omega),
    show (0xc0 + c / 0x40 - 0xc0) * 0x40 + (0x80 + c % 0x40 - 0x80) = c from
      by omega]

theorem roundtrip_three_decode {c : Nat} (h1 : 0x800 ≤ c) (h2 : c ≤ 0xffff) :
    decodeUtf8 [0xe0 + c / 0x1000, 0x80 + c / 0x40 % 0x40, 0x80 + c % 0x40] =
      some [c] := by
  have hcond : (if 0xe0 + c / 0x1000 = 0xe0 then 0xa0 ≤ 0x80 + c / 0x40 % 0x40
      else 0x80 ≤ 0x80 + c / 0x40 % 0x40) := by
    by_cases he : 0xe0 + c / 0x1000 = 0xe0
    · rw [if_pos he]
      omega
    · rw [if_neg he]
      omega
  rw [decodeUtf8_three (by omega) (by omega) hcond (by omega) (by omega)
      (by omega),
    show (0xe0 + c / 0x1000 - 0xe0) * 0x1000 +
        (0x80 + c / 0x40 % 0x40 - 0x80) * 0x40 + (0x80 + c % 0x40 - 0x80) = c
      from by omega]

namespace general

theorem matchAt_pair {a b : Nat} (h1 : 0xc2 ≤ a) (h2 : a ≤ 0xdf)
    (h3 : 0x80 ≤ b) (h4 : b ≤ 0xbf) : matchAt [a, b] = some [a, b] := by
  simp only [matchAt]
  rw [if_pos ⟨h1, h2, h3, h4⟩]

theorem matchAt_triple {a b c : Nat} (h1 : 0xe0 ≤ a) (h2 : a ≤ 0xef)
    (h3 : if a = 0xe0 then 0xa0 ≤ b else 0x80 ≤ b) (h5 : b ≤ 0xbf)
    (h6 : 0x80 ≤ c) (h7 : c ≤ 0xbf) : matchAt [a, b, c] = some [a, b, c] := by
  have h4 : 0x80 ≤ b := by
    by_cases he : a = 0xe0
    · rw [if_pos he] at h3
      omega
    · rw [if_neg he] at h3
      exact h3
  simp only [matchAt]
  rw [if_neg (by rintro ⟨x1, x2, -⟩; omega),
    if_neg (by rintro ⟨x1, x2, -⟩; omega),
    if_neg (by rintro ⟨x1, -⟩; omega)]
  by_cases he : a = 0xe0
  · rw [if_pos he] at h3
    rw [if_neg (by rintro ⟨x1, -⟩; omega), if_pos ⟨he, h3, h5, h6, h7⟩]
  · rw [if_pos ⟨by omega, h2, h4, h5, h6, h7⟩]

/-- Repairing a string that is exactly one matched span. -/
theorem fix_of_single_match {l : List Nat} {ch : Nat}
    (hm : matchAt l = some l) (hf : fixMatch l = some [ch]) :
    fix_bad_unicode l = some [ch] := by
  have hss : searchSplit l = some ([], l, []) := by
    rw [searchSplit_head hm]
    simp
  have hp : fixOnePass l = some [ch] := by
    rw [fixOnePass_matched hss hf,
      fixOnePass_no_match (show searchSplit [] = none from rfl)]
    rfl
  unfold fix_bad_unicode
  rw [fixAux_done hp (searchSplit_single ch)]
  rfl

end general

namespace fixit

theorem matchAt_pair_fx {a b : Nat} (h1 : 0xc2 ≤ a) (h2 : a ≤ 0xdf)
    (h3 : 0x80 ≤ b) (h4 : b ≤ 0xbf) : matchAt [a, b] = some [a, b] := by
  simp only [matchAt]
  rw [if_pos ⟨h1, h2, h3, h4⟩]

theorem matchAt_triple_fx {a b c : Nat} (h1 : 0xe0 ≤ a) (h2 : a ≤ 0xef)
    (h3 : if a = 0xe0 then 0xa0 ≤ b else 0x80 ≤ b) (h5 : b ≤ 0xbf)
    (h6 : 0x80 ≤ c) (h7 : c ≤ 0xbf) : matchAt [a, b, c] = some [a, b, c] := by
  have h4 : 0x80 ≤ b := by
    by_cases he : a = 0xe0
    · rw [if_pos he] at h3
      omega
    · rw [if_neg he] at h3
      exact h3
  simp only [matchAt]
  rw [if_neg (by rintro ⟨x1, x2, -⟩; omega),
    if_neg (by rintro ⟨x1, x2, -⟩; omega),
    if_neg (by rintro ⟨x1, -⟩; omega)]
  by_cases he : a = 0xe0
  · rw [if_pos he] at h3
    rw [if_neg (by rintro ⟨x1, -⟩; omega), if_pos ⟨he, h3, h5, h6, h7⟩]
  · rw [if_pos ⟨by omega, h2, h4, h5, h6, h7⟩]

theorem fix_of_single_match_fx {l : List Nat} {ch : Nat}
    (hm : matchAt l = some l) (hf : fixMatch l = some [ch]) :
    fix_bad_unicode l = some [ch] := by
  have hss : searchSplit l = some ([], l, []) := by
    rw [searchSplit_head_fx hm]
    simp
  have hp : fixOnePass l = some [ch] := by
    rw [fixOnePass_matched_fx hss hf,
      fixOnePass_no_match_fx (show searchSplit [] = none from rfl)]
    rfl
  unfold fix_bad_unicode
  rw [fixAux_done_fx hp (searchSplit_single_fx ch)]
  rfl

end fixit

theorem single_repair_general_fix :
    general.fix_bad_unicode [0xc3, 0xb1] = some [0xf1] :=
  general.fix_of_single_match (by decide) (by decide)

theorem single_repair_fixit_fix :
    fixit.fix_bad_unicode [0xc3, 0xb1] = some [0xf1] :=
  fixit.fix_of_single_match_fx (by decide) (by decide)

theorem single_repair_general_aux :
    general.fixAux [0xc3, 0xb1] = some ([0xf1], 0) := by
  have hss : general.searchSplit [0xc3, 0xb1] =
      some ([], [0xc3, 0xb1], []) := by decide
  have hp : general.fixOnePass [0xc3, 0xb1] = some [0xf1] := by
    rw [general.fixOnePass_matched hss
        (show general.fixMatch [0xc3, 0xb1] = some [0xf1] by decide),
      general.fixOnePass_no_match (show general.searchSplit [] = none from
        rfl)]
    rfl
  exact general.fixAux_done hp (by decide)

/-- C1: The top-level repair function is idempotent: for every Unicode
string `x`, `repair (repair x) = repair x`.  Stated for both revisions
(`metanl/general.py` and `metanl/fixit.py`); an exception (`none`)
propagates through the composition, matching Python's behaviour. -/
theorem claim_C1_idempotent : ∀ l : List Nat,
    (general.fix_bad_unicode l).bind general.fix_bad_unicode =
      general.fix_bad_unicode l ∧
    (fixit.fix_bad_unicode l).bind fixit.fix_bad_unicode =
      fixit.fix_bad_unicode l := by
  intro l
  constructor
  · rcases h : general.fix_bad_unicode l with _ | r
    · rfl
    · exact general.fix_clean (general.fix_output_clean h)
  · rcases h : fixit.fix_bad_unicode l with _ | r
    · rfl
    · exact fixit.fix_clean_fx (fixit.fix_output_clean_fx h)

/-- C5: No-op on clean text: the repair function returns its input
unchanged exactly when no offset of the input matches any of the six
corruption shapes.  Stated for both revisions. -/
theorem claim_C5_noop_iff_clean : ∀ l : List Nat,
    (general.fix_bad_unicode l = some l ↔
      ∀ i, general.matchAt (l.drop i) = none) ∧
    (fixit.fix_bad_unicode l = some l ↔
      ∀ i, fixit.matchAt (l.drop i) = none) := by
  intro l
  constructor
  · constructor
    · intro h
      exact general.searchSplit_none_iff.1 (general.fix_output_clean h)
    · intro h
      exact general.fix_clean (general.searchSplit_none_iff.2 h)
  · constructor
    · intro h
      exact fixit.searchSplit_none_iff_fx.1 (fixit.fix_output_clean_fx h)
    · intro h
      exact fixit.fix_clean_fx (fixit.searchSplit_none_iff_fx.2 h)

/-- C9: Whatever string the repair function returns contains no substring
matching any of the six corruption shapes: the function only returns
after a pass in which the scanner finds nothing.  Stated for both
revisions. -/
theorem claim_C9_output_clean : ∀ l r : List Nat,
    (general.fix_bad_unicode l = some r →
      ∀ i, general.matchAt (r.drop i) = none) ∧
    (fixit.fix_bad_unicode l = some r →
      ∀ i, fixit.matchAt (r.drop i) = none) := by
  intro l r
  exact ⟨fun h => general.searchSplit_none_iff.1 (general.fix_output_clean h),
    fun h => fixit.searchSplit_none_iff_fx.1 (fixit.fix_output_clean_fx h)⟩

theorem claim_C9_witness :
    general.matchAt (([0xf1] : List Nat).drop 0) = none ∧
    fixit.matchAt (([0xf1] : List Nat).drop 0) = none :=
  ⟨(claim_C9_output_clean [0xc3, 0xb1] [0xf1]).1 single_repair_general_fix 0,
   (claim_C9_output_clean [0xc3, 0xb1] [0xf1]).2 single_repair_fixit_fix 0⟩

/-- C10: For every matched span whose reconstructed byte sequence
decodes successfully as UTF-8, the replacement spliced in is exactly one
code unit long — always, not merely in the majority of cases
(`metanl/general.py`). -/
theorem claim_C10_single_scalar : ∀ l span out : List Nat,
    general.matchAt l = some span → general.fixMatch span = some out →
    ∃ ch, out = [ch] := by
  intro l span out hm hf
  rcases general.fixMatch_disj hm with hno | ⟨ch, hch⟩
  · rw [hno] at hf
    cases hf
  · rw [hch] at hf
    exact ⟨ch, (Option.some.inj hf).symm⟩

theorem claim_C10_witness : ∃ ch, ([0xf1] : List Nat) = [ch] :=
  claim_C10_single_scalar [0xc3, 0xb1] [0xc3, 0xb1] [0xf1]
    (by decide) (by decide)

/-- C2: On the input "â‰…—" (code units 0xE2, 0x85, U+2014) the
`metanl/general.py` repair function raises an uncaught
`UnicodeEncodeError` (result `none`): the matched span mixes a gremlin
with a control character that Windows-1252 cannot encode, so the
`except` branch's whole-span cp1252 encode itself fails.  The revised
`metanl/fixit.py` function returns normally on every input. -/
theorem claim_C2_crash_vs_total :
    general.fix_bad_unicode [0xe2, 0x85, 0x2014] = none ∧
    ∀ l : List Nat, ∃ r, fixit.fix_bad_unicode l = some r := by
  constructor
  · have hss : general.searchSplit [0xe2, 0x85, 0x2014] =
        some ([], [0xe2, 0x85, 0x2014], []) := by decide
    have hf : general.fixMatch [0xe2, 0x85, 0x2014] = none := by decide
    unfold general.fix_bad_unicode
    rw [general.fixAux_raise (general.fixOnePass_raise hss hf)]
    rfl
  · intro l
    obtain ⟨r, m, hrm⟩ := fixit.fixAux_total_fx l.length l le_rfl
    refine ⟨r, ?_⟩
    unfold fixit.fix_bad_unicode
    rw [hrm]
    rfl

/-- C3 counterexample: at the input "â€€" (code units 0xE2, 0x80,
U+20AC) the span is matched, its repair fails, and the failure
propagates out of `metanl/general.py`'s `fix_bad_unicode` as an
exception (`none`) — the span is not left unchanged and the error is
not confined, contradicting the claim's account of failed span
repairs. -/
theorem claim_C3_counterexample :
    general.matchAt [0xe2, 0x80, 0x20ac] = some [0xe2, 0x80, 0x20ac] ∧
    general.toBytes [0xe2, 0x80, 0x20ac] = none ∧
    general.fix_bad_unicode [0xe2, 0x80, 0x20ac] = none := by
  refine ⟨by decide, by decide, ?_⟩
  have hss : general.searchSplit [0xe2, 0x80, 0x20ac] =
      some ([], [0xe2, 0x80, 0x20ac], []) := by decide
  have hf : general.fixMatch [0xe2, 0x80, 0x20ac] = none := by decide
  unfold general.fix_bad_unicode
  rw [general.fixAux_raise (general.fixOnePass_raise hss hf)]
  rfl

/-- C3 (amended): the decode-failure case the claim describes is
unreachable — whenever the byte reconstruction of a matched span
succeeds, those bytes decode as UTF-8 (Python 2's decoder also accepts
the surrogate sequences shape 4 can produce), yielding exactly one code
unit; in `metanl/fixit.py` the whole repair of a matched span always
succeeds.  (What can fail, in `metanl/general.py` only, is the byte
reconstruction itself, and that exception propagates to the caller.) -/
theorem claim_C3_amended : ∀ l span bs : List Nat,
    (general.matchAt l = some span → general.toBytes span = some bs →
      ∃ ch, decodeUtf8 bs = some [ch]) ∧
    (fixit.matchAt l = some span → ∃ ch, fixit.fixMatch span = some [ch]) := by
  intro l span bs
  exact ⟨fun hm hb => general.toBytes_decode hm hb,
    fun hm => fixit.fixMatch_one hm⟩

theorem claim_C3_witness :
    (∃ ch, decodeUtf8 [0xc3, 0xb1] = some [ch]) ∧
    (∃ ch, fixit.fixMatch [0xc3, 0xb1] = some [ch]) :=
  ⟨(claim_C3_amended [0xc3, 0xb1] [0xc3, 0xb1] [0xc3, 0xb1]).1
      (by decide) (by decide),
   (claim_C3_amended [0xc3, 0xb1] [0xc3, 0xb1] [0xc3, 0xb1]).2 (by decide)⟩

/-- C6: Termination structure of `metanl/general.py`'s driver: a matched
span is 2 or 3 code units and its successful repair is exactly 1 code
unit (strictly shorter); a pass that found a match strictly shrinks the
string; and the number of recursive re-invocations of the outer loop is
bounded by the number of suspicious code units of the original input
(each inner pass scans a strictly shrinking suffix, so it is bounded by
the string length by construction). -/
theorem claim_C6_termination :
    (∀ l span : List Nat, general.matchAt l = some span →
      (span.length = 2 ∨ span.length = 3) ∧
      ∀ out : List Nat, general.fixMatch span = some out → out.length = 1) ∧
    (∀ l r : List Nat, general.searchSplit l ≠ none →
      general.fixOnePass l = some r → r.length < l.length) ∧
    (∀ (l r : List Nat) (m : Nat), general.fixAux l = some (r, m) →
      m ≤ suspiciousCount l) := by
  refine ⟨?_, ?_, ?_⟩
  · intro l span hm
    refine ⟨general.matchAt_len hm, ?_⟩
    intro out hout
    rcases general.fixMatch_disj hm with hno | ⟨ch, hch⟩
    · rw [hno] at hout
      cases hout
    · rw [hch] at hout
      rw [← Option.some.inj hout]
      rfl
  · intro l r hne h
    exact ((general.fixOnePass_bounds l.length le_rfl h).2 hne).1
  · intro l r m h
    exact (general.fixAux_spec l.length le_rfl h).2.2.1

theorem claim_C6_witness :
    (([0xc3, 0xb1] : List Nat).length = 2 ∨
      ([0xc3, 0xb1] : List Nat).length = 3) ∧
    ([0xf1] : List Nat).length = 1 ∧
    0 ≤ suspiciousCount [0xc3, 0xb1] :=
  ⟨(claim_C6_termination.1 [0xc3, 0xb1] [0xc3, 0xb1] (by decide)).1,
   (claim_C6_termination.1 [0xc3, 0xb1] [0xc3, 0xb1] (by decide)).2
     [0xf1] (by decide),
   claim_C6_termination.2.2 [0xc3, 0xb1] [0xf1] 0 single_repair_general_aux⟩

/-- C7: The scanner returns the leftmost-starting match (no earlier
offset matches); the matched span is the first shape, in the fixed
priority order 1–6, that matches at that offset; the remainder handed to
the rest of the pass starts immediately after the span (so successive
matches in one pass never overlap); and when nothing matches at a
position the scan advances by exactly one code unit
(`metanl/general.py`'s `BAD_UNICODE_RE`). -/
theorem claim_C7_scanner :
    (∀ l pre span post : List Nat,
      general.searchSplit l = some (pre, span, post) →
      l = pre ++ span ++ post ∧
      post = l.drop (pre.length + span.length) ∧
      general.matchAt (l.drop pre.length) = some span ∧
      (∀ i, i < pre.length → general.matchAt (l.drop i) = none) ∧
      (∃ k, 1 ≤ k ∧ k ≤ 6 ∧
        shapeMatchSpec k (l.drop pre.length) = some span ∧
        ∀ j, 1 ≤ j → j < k → shapeMatchSpec j (l.drop pre.length) = none)) ∧
    (∀ (a : Nat) (rest : List Nat), general.matchAt (a :: rest) = none →
      general.searchSplit (a :: rest) =
        Option.map (fun p => (a :: p.1, p.2.1, p.2.2))
          (general.searchSplit rest)) ∧
    (∀ l pre span post fixed : List Nat,
      general.searchSplit l = some (pre, span, post) →
      general.fixMatch span = some fixed →
      general.fixOnePass l =
        Option.map (fun r => pre ++ (fixed ++ r)) (general.fixOnePass post)) := by
  refine ⟨?_, ?_, ?_⟩
  · intro l pre span post h
    obtain ⟨hdec, hmat, hpost, hleft⟩ := general.searchSplit_some h
    exact ⟨hdec, hpost, hmat, hleft, general.matchAt_priority hmat⟩
  · intro a rest h
    simp only [general.searchSplit]
    rw [h]
  · intro l pre span post fixed hs hf
    exact general.fixOnePass_matched hs hf

theorem claim_C7_witness :
    ([0x66, 0xc3, 0xb1] : List Nat) = [0x66] ++ [0xc3, 0xb1] ++ [] ∧
    general.matchAt (([0x66, 0xc3, 0xb1] : List Nat).drop 1) =
      some [0xc3, 0xb1] := by
  have h := claim_C7_scanner.1 [0x66, 0xc3, 0xb1] [0x66] [0xc3, 0xb1] []
    (by decide)
  exact ⟨h.1, h.2.2.1⟩

/-- C4: Full-BMP round trip: for every code point below 0x10000 (in
particular every assigned, non-private-use BMP scalar value), decoding
its UTF-8 bytes as Latin-1 and repairing the result recovers exactly the
one-character string — for both revisions of the engine.  (The theorem
needs no assigned/private-use exclusion, and Python 2's UTF-8 codec even
round-trips the surrogate range.) -/
theorem claim_C4_bmp_roundtrip : ∀ c : Nat, c < 0x10000 →
    general.fix_bad_unicode (decode_as_latin1 (utf8Encode c)) = some [c] ∧
    fixit.fix_bad_unicode (decode_as_latin1 (utf8Encode c)) = some [c] := by
  intro c hc
  by_cases h7f : c ≤ 0x7f
  · simp only [decode_as_latin1, utf8Encode_one h7f]
    exact ⟨general.fix_clean (general.searchSplit_single c),
      fixit.fix_clean_fx (fixit.searchSplit_single_fx c)⟩
  · by_cases h7ff : c ≤ 0x7ff
    · simp only [decode_as_latin1, utf8Encode_two (by omega) h7ff]
      have hm : general.matchAt [0xc0 + c / 0x40, 0x80 + c % 0x40] =
          some [0xc0 + c / 0x40, 0x80 + c % 0x40] :=
        general.matchAt_pair (by omega) (by omega) (by omega) (by omega)
      have hmf : fixit.matchAt [0xc0 + c / 0x40, 0x80 + c % 0x40] =
          some [0xc0 + c / 0x40, 0x80 + c % 0x40] :=
        fixit.matchAt_pair_fx (by omega) (by omega) (by omega) (by omega)
      have henc : encodeLatin1 [0xc0 + c / 0x40, 0x80 + c % 0x40] =
          some [0xc0 + c / 0x40, 0x80 + c % 0x40] := by
        apply encodeLatin1_ok
        intro x hx
        simp at hx
        rcases hx with rfl | rfl <;> omega
      have hfg : general.fixMatch [0xc0 + c / 0x40, 0x80 + c % 0x40] =
          some [c] := by
        unfold general.fixMatch general.toBytes
        rw [henc]
        exact roundtrip_two_decode (by omega) h7ff
      have hff : fixit.fixMatch [0xc0 + c / 0x40, 0x80 + c % 0x40] =
          some [c] := by
        unfold fixit.fixMatch
        rw [henc]
        exact roundtrip_two_decode (by omega) h7ff
      exact ⟨general.fix_of_single_match hm hfg,
        fixit.fix_of_single_match_fx hmf hff⟩
    · have h800 : 0x800 ≤ c := by omega
      have hffff : c ≤ 0xffff := by omega
      simp only [decode_as_latin1, utf8Encode_three h800 hffff]
      have hcond : (if 0xe0 + c / 0x1000 = 0xe0 then
          0xa0 ≤ 0x80 + c / 0x40 % 0x40 else
          0x80 ≤ 0x80 + c / 0x40 % 0x40) := by
        by_cases he : 0xe0 + c / 0x1000 = 0xe0
        · rw [if_pos he]
          omega
        · rw [if_neg he]
          omega
      have hm : general.matchAt
          [0xe0 + c / 0x1000, 0x80 + c / 0x40 % 0x40, 0x80 + c % 0x40] =
          some [0xe0 + c / 0x1000, 0x80 + c / 0x40 % 0x40, 0x80 + c % 0x40] :=
        general.matchAt_triple (by omega) (by omega) hcond (by omega)
          (by omega) (by omega)
      have hmf : fixit.matchAt
          [0xe0 + c / 0x1000, 0x80 + c / 0x40 % 0x40, 0x80 + c % 0x40] =
          some [0xe0 + c / 0x1000, 0x80 + c / 0x40 % 0x40, 0x80 + c % 0x40] :=
        fixit.matchAt_triple_fx (by omega) (by omega) hcond (by omega)
          (by omega) (by omega)
      have henc : encodeLatin1
          [0xe0 + c / 0x1000, 0x80 + c / 0x40 % 0x40, 0x80 + c % 0x40] =
          some [0xe0 + c / 0x1000, 0x80 + c / 0x40 % 0x40, 0x80 + c % 0x40] := by
        apply encodeLatin1_ok
        intro x hx
        simp at hx
        rcases hx with rfl | rfl | rfl <;> omega
      have hfg : general.fixMatch
          [0xe0 + c / 0x1000, 0x80 + c / 0x40 % 0x40, 0x80 + c % 0x40] =
          some [c] := by
        unfold general.fixMatch general.toBytes
        rw [henc]
        exact roundtrip_three_decode h800 hffff
      have hff : fixit.fixMatch
          [0xe0 + c / 0x1000, 0x80 + c / 0x40 % 0x40, 0x80 + c % 0x40] =
          some [c] := by
        unfold fixit.fixMatch
        rw [henc]
        exact roundtrip_three_decode h800 hffff
      exact ⟨general.fix_of_single_match hm hfg,
        fixit.fix_of_single_match_fx hmf hff⟩

theorem claim_C4_witness : (0x171 : Nat) < 0x10000 ∧
    general.fix_bad_unicode (decode_as_latin1 (utf8Encode 0x171)) =
      some [0x171] ∧
    fixit.fix_bad_unicode (decode_as_latin1 (utf8Encode 0x171)) =
      some [0x171] :=
  ⟨by decide, (claim_C4_bmp_roundtrip 0x171 (by decide)).1,
    (claim_C4_bmp_roundtrip 0x171 (by decide)).2⟩

/-- C8: Multi-level repair of doubly mis-encoded text:
`fix_bad_unicode` on "what the fÃ\u0083Â\u0085Ã\u0082Â±ck"
returns exactly "what the fűck" (ű is U+0171), and the driver re-invokes
itself twice — three inner passes in all, so more than one outer
convergence pass is required (`metanl/general.py`). -/
theorem claim_C8_multilevel :
    general.fixAux
      [0x77, 0x68, 0x61, 0x74, 0x20, 0x74, 0x68, 0x65, 0x20, 0x66,
       0xc3, 0x83, 0xc2, 0x85, 0xc3, 0x82, 0xc2, 0xb1, 0x63, 0x6b] =
      some ([0x77, 0x68, 0x61, 0x74, 0x20, 0x74, 0x68, 0x65, 0x20, 0x66,
        0x171, 0x63, 0x6b], 2) ∧
    general.fix_bad_unicode
      [0x77, 0x68, 0x61, 0x74, 0x20, 0x74, 0x68, 0x65, 0x20, 0x66,
       0xc3, 0x83, 0xc2, 0x85, 0xc3, 0x82, 0xc2, 0xb1, 0x63, 0x6b] =
      some [0x77, 0x68, 0x61, 0x74, 0x20, 0x74, 0x68, 0x65, 0x20, 0x66,
        0x171, 0x63, 0x6b] := by
  have t0 : general.fixOnePass [0x63, 0x6b] = some [0x63, 0x6b] :=
    general.fixOnePass_no_match (by decide)
  have t1 : general.fixOnePass [0xc2, 0xb1, 0x63, 0x6b] =
      some [0xb1, 0x63, 0x6b] := by
    rw [general.fixOnePass_matched
        (show general.searchSplit [0xc2, 0xb1, 0x63, 0x6b] =
          some ([], [0xc2, 0xb1], [0x63, 0x6b]) by decide)
        (show general.fixMatch [0xc2, 0xb1] = some [0xb1] by decide), t0]
    rfl
  have t2 : general.fixOnePass [0xc3, 0x82, 0xc2, 0xb1, 0x63, 0x6b] =
      some [0xc2, 0xb1, 0x63, 0x6b] := by
    rw [general.fixOnePass_matched
        (show general.searchSplit [0xc3, 0x82, 0xc2, 0xb1, 0x63, 0x6b] =
          some ([], [0xc3, 0x82], [0xc2, 0xb1, 0x63, 0x6b]) by decide)
        (show general.fixMatch [0xc3, 0x82] = some [0xc2] by decide), t1]
    rfl
  have t3 : general.fixOnePass
      [0xc2, 0x85, 0xc3, 0x82, 0xc2, 0xb1, 0x63, 0x6b] =
      some [0x85, 0xc2, 0xb1, 0x63, 0x6b] := by
    rw [general.fixOnePass_matched
        (show general.searchSplit
            [0xc2, 0x85, 0xc3, 0x82, 0xc2, 0xb1, 0x63, 0x6b] =
          some ([], [0xc2, 0x85], [0xc3, 0x82, 0xc2, 0xb1, 0x63, 0x6b])
          by decide)
        (show general.fixMatch [0xc2, 0x85] = some [0x85] by decide), t2]
    rfl
  have p1 : general.fixOnePass
      [0x77, 0x68, 0x61, 0x74, 0x20, 0x74, 0x68, 0x65, 0x20, 0x66,
       0xc3, 0x83, 0xc2, 0x85, 0xc3, 0x82, 0xc2, 0xb1, 0x63, 0x6b] =
      some [0x77, 0x68, 0x61, 0x74, 0x20, 0x74, 0x68, 0x65, 0x20, 0x66,
        0xc3, 0x85, 0xc2, 0xb1, 0x63, 0x6b] := by
    rw [general.fixOnePass_matched
        (show general.searchSplit
            [0x77, 0x68, 0x61, 0x74, 0x20, 0x74, 0x68, 0x65, 0x20, 0x66,
             0xc3, 0x83, 0xc2, 0x85, 0xc3, 0x82, 0xc2, 0xb1, 0x63, 0x6b] =
          some ([0x77, 0x68, 0x61, 0x74, 0x20, 0x74, 0x68, 0x65, 0x20, 0x66],
            [0xc3, 0x83],
            [0xc2, 0x85, 0xc3, 0x82, 0xc2, 0xb1, 0x63, 0x6b]) by decide)
        (show general.fixMatch [0xc3, 0x83] = some [0xc3] by decide), t3]
    rfl
  have p2 : general.fixOnePass
      [0x77, 0x68, 0x61, 0x74, 0x20, 0x74, 0x68, 0x65, 0x20, 0x66,
       0xc3, 0x85, 0xc2, 0xb1, 0x63, 0x6b] =
      some [0x77, 0x68, 0x61, 0x74, 0x20, 0x74, 0x68, 0x65, 0x20, 0x66,
        0xc5, 0xb1, 0x63, 0x6b] := by
    rw [general.fixOnePass_matched
        (show general.searchSplit
            [0x77, 0x68, 0x61, 0x74, 0x20, 0x74, 0x68, 0x65, 0x20, 0x66,
             0xc3, 0x85, 0xc2, 0xb1, 0x63, 0x6b] =
          some ([0x77, 0x68, 0x61, 0x74, 0x20, 0x74, 0x68, 0x65, 0x20, 0x66],
            [0xc3, 0x85], [0xc2, 0xb1, 0x63, 0x6b]) by decide)
        (show general.fixMatch [0xc3, 0x85] = some [0xc5] by decide), t1]
    rfl
  have p3 : general.fixOnePass
      [0x77, 0x68, 0x61, 0x74, 0x20, 0x74, 0x68, 0x65, 0x20, 0x66,
       0xc5, 0xb1, 0x63, 0x6b] =
      some [0x77, 0x68, 0x61, 0x74, 0x20, 0x74, 0x68, 0x65, 0x20, 0x66,
        0x171, 0x63, 0x6b] := by
    rw [general.fixOnePass_matched
        (show general.searchSplit
            [0x77, 0x68, 0x61, 0x74, 0x20, 0x74, 0x68, 0x65, 0x20, 0x66,
             0xc5, 0xb1, 0x63, 0x6b] =
          some ([0x77, 0x68, 0x61, 0x74, 0x20, 0x74, 0x68, 0x65, 0x20, 0x66],
            [0xc5, 0xb1], [0x63, 0x6b]) by decide)
        (show general.fixMatch [0xc5, 0xb1] = some [0x171] by decide), t0]
    rfl
  have a2 : general.fixAux
      [0x77, 0x68, 0x61, 0x74, 0x20, 0x74, 0x68, 0x65, 0x20, 0x66,
       0xc5, 0xb1, 0x63, 0x6b] =
      some ([0x77, 0x68, 0x61, 0x74, 0x20, 0x74, 0x68, 0x65, 0x20, 0x66,
        0x171, 0x63, 0x6b], 0) :=
    general.fixAux_done p3 (by decide)
  have a1 : general.fixAux
      [0x77, 0x68, 0x61, 0x74, 0x20, 0x74, 0x68, 0x65, 0x20, 0x66,
       0xc3, 0x85, 0xc2, 0xb1, 0x63, 0x6b] =
      some ([0x77, 0x68, 0x61, 0x74, 0x20, 0x74, 0x68, 0x65, 0x20, 0x66,
        0x171, 0x63, 0x6b], 1) := by
    rw [general.fixAux_again p2
        (show general.searchSplit
            [0x77, 0x68, 0x61, 0x74, 0x20, 0x74, 0x68, 0x65, 0x20, 0x66,
             0xc5, 0xb1, 0x63, 0x6b] =
          some ([0x77, 0x68, 0x61, 0x74, 0x20, 0x74, 0x68, 0x65, 0x20, 0x66],
            [0xc5, 0xb1], [0x63, 0x6b]) by decide), a2]
    rfl
  have a0 : general.fixAux
      [0x77, 0x68, 0x61, 0x74, 0x20, 0x74, 0x68, 0x65, 0x20, 0x66,
       0xc3, 0x83, 0xc2, 0x85, 0xc3, 0x82, 0xc2, 0xb1, 0x63, 0x6b] =
      some ([0x77, 0x68, 0x61, 0x74, 0x20, 0x74, 0x68, 0x65, 0x20, 0x66,
        0x171, 0x63, 0x6b], 2) := by
    rw [general.fixAux_again p1
        (show general.searchSplit
            [0x77, 0x68, 0x61, 0x74, 0x20, 0x74, 0x68, 0x65, 0x20, 0x66,
             0xc3, 0x85, 0xc2, 0xb1, 0x63, 0x6b] =
          some ([0x77, 0x68, 0x61, 0x74, 0x20, 0x74, 0x68, 0x65, 0x20, 0x66],
            [0xc3, 0x85], [0xc2, 0xb1, 0x63, 0x6b]) by decide), a1]
    rfl
  refine ⟨a0, ?_⟩
  unfold general.fix_bad_unicode
  rw [a0]
  rfl
